import Mathlib

/-!
Verification development for the DimQ broker message plane.

The definitions below are a shallow embedding of the C sources:
  src/src/database.c        (per-session message queues, message store)
  src/src/handle_connect.c  (connection_check_acl)
  src/lib/util_topic.c      (topic validator and topic matcher)
C intrusive doubly-linked lists (utlist) are modelled as Lean lists;
in-place mutation becomes explicit state passing.  Machine integers are
modelled as Int (all signed arithmetic in the relevant code paths stays
far from overflow: counters are ints/longs over at most 65535 messages).
The global broker state `db` is threaded explicitly as a `Db` value.
-/

/-- Error codes. Modelled from the spec: the error taxonomy of spec section 7;
the numeric values follow the public libdimq error enum, which is declared in
a header outside src/. Raw `return 1` and `return 2` in the C sources are kept
as the literal integers. -/
def dimq_ERR_SUCCESS : Int := 0

/-- Out-of-memory error code (numeric value 1 in the public enum). -/
def dimq_ERR_NOMEM : Int := 1

/-- Protocol error code (numeric value 2 in the public enum). -/
def dimq_ERR_PROTOCOL : Int := 2

/-- Invalid-input error code (numeric value 3 in the public enum). -/
def dimq_ERR_INVAL : Int := 3

/-- Not-found error code (numeric value 6 in the public enum). -/
def dimq_ERR_NOT_FOUND : Int := 6

/-- Oversize-packet error code (numeric value 25 in the public enum). -/
def dimq_ERR_OVERSIZE_PACKET : Int := 25

/-- Message direction, enum dimq_msg_direction. -/
inductive Dir where
  | md_in
  | md_out
deriving DecidableEq

/-- Client message state, enum dimq_msg_state. -/
inductive MsgState where
  | ms_invalid
  | ms_publish_qos0
  | ms_publish_qos1
  | ms_publish_qos2
  | ms_wait_for_puback
  | ms_wait_for_pubrec
  | ms_wait_for_pubrel
  | ms_wait_for_pubcomp
  | ms_send_pubrec
  | ms_resend_pubrel
  | ms_resend_pubcomp
  | ms_queued
deriving DecidableEq

/-- Protocol version of a session. -/
inductive Protocol where
  | p_mqtt31
  | p_mqtt311
  | p_mqtt5
deriving DecidableEq

/-- Client session state (only the states the embedded code consults). -/
inductive ClientState where
  | cs_new
  | cs_active
  | cs_duplicate
  | cs_disconnecting
  | cs_disconnected
deriving DecidableEq

/-- The immutable part of struct dimq_msg_store: fields set at creation and
never changed afterwards. A ClientMsg reads these fields through its store
pointer; in the embedding each ClientMsg carries this value directly.
`topic = none` models a NULL topic (a denied QoS 2 message). -/
structure SMsg where
  db_id : Nat
  topic : Option String
  payloadlen : Nat
  qos : Nat
  retain : Bool
  message_expiry_time : Nat
  source_id : String
deriving DecidableEq

/-- A full store-pool entry: the immutable core plus the mutable fields
ref_count and dest_ids of struct dimq_msg_store. The process-wide doubly
linked list db.msg_store is modelled as a Lean list of these entries,
addressed by the unique db_id. -/
structure StoredMsg where
  core : SMsg
  ref_count : Int
  dest_ids : List String
deriving DecidableEq

/-- struct dimq_client_msg. The store pointer is the immutable core value. -/
structure ClientMsg where
  mid : Nat
  qos : Nat
  retain : Bool
  dup : Bool
  direction : Dir
  state : MsgState
  timestamp : Nat
  store : SMsg
deriving DecidableEq

/-- struct dimq_msg_data: one direction of a session's bookkeeping. -/
structure MsgData where
  inflight : List ClientMsg
  queued : List ClientMsg
  msg_count : Int
  msg_count12 : Int
  msg_bytes : Int
  msg_bytes12 : Int
  inflight_maximum : Nat
  inflight_quota : Int
deriving DecidableEq

/-- Bridge settings consulted by db__message_insert (struct dimq__bridge). -/
structure Bridge where
  start_type_lazy : Bool
  clean_start_local : Bool
  clean_start : Bool
  threshold : Int
  lazy_reconnect : Bool
deriving DecidableEq

/-- The configuration fields of struct dimq__config that the embedded code
reads. -/
structure Config where
  max_inflight_bytes : Nat
  max_queued_bytes : Nat
  max_queued_messages : Nat
  queue_qos0_messages : Bool
  allow_duplicate_messages : Bool
deriving DecidableEq

/-- struct dimq (a client context/session), restricted to the fields the
embedded code reads or writes. `sock_valid = false` models
sock == INVALID_SOCKET. `id = none` models a NULL client id. -/
structure Context where
  id : Option String
  protocol : Protocol
  sock_valid : Bool
  state : ClientState
  max_qos : Nat
  is_dropping : Bool
  out_packet_count : Int
  bridge : Option Bridge
  msgs_in : MsgData
  msgs_out : MsgData
deriving DecidableEq

/-- The global broker state `db`, threaded explicitly. -/
structure Db where
  config : Config
  now_s : Nat
  now_real_s : Nat
  msg_store : List StoredMsg
  msg_store_count : Int
  msg_store_bytes : Int
  msgs_dropped : Nat
deriving DecidableEq

/-- Direction selection performed at the top of several database.c
functions: msgs = dir == dimq_md_out ? context.msgs_out : context.msgs_in. -/
def msgsFor (context : Context) (dir : Dir) : MsgData :=
  if dir = Dir.md_out then context.msgs_out else context.msgs_in

/-- db__ready_for_flight from src/src/database.c lines 38-89. -/
def db__ready_for_flight (db : Db) (context : Context) (dir : Dir) (qos : Nat) : Bool :=
  let msgs := msgsFor context dir
  if msgs.inflight_maximum = 0 ∧ db.config.max_inflight_bytes = 0 then
    true
  else if qos = 0 then
    let valid_bytes : Bool :=
      msgs.msg_bytes - (db.config.max_inflight_bytes : Int) < (db.config.max_queued_bytes : Int)
    let valid_count : Bool :=
      if dir = Dir.md_out then
        context.out_packet_count < (db.config.max_queued_messages : Int)
      else
        msgs.msg_count - (msgs.inflight_maximum : Int) < (db.config.max_queued_messages : Int)
    if db.config.max_queued_messages = 0 ∧ db.config.max_inflight_bytes = 0 then
      true
    else if db.config.max_queued_messages = 0 then
      valid_bytes
    else if db.config.max_queued_bytes = 0 then
      valid_count
    else
      valid_bytes && valid_count
  else
    let valid_bytes : Bool := msgs.msg_bytes12 < (db.config.max_inflight_bytes : Int)
    let valid_count : Bool := 0 < msgs.inflight_quota
    if msgs.inflight_maximum = 0 then
      valid_bytes
    else if db.config.max_inflight_bytes = 0 then
      valid_count
    else
      valid_bytes && valid_count

/-- db__ready_for_queue from src/src/database.c lines 100-138. -/
def db__ready_for_queue (db : Db) (context : Context) (qos : Nat) (msg_data : MsgData) : Bool :=
  if db.config.max_queued_messages = 0 ∧ db.config.max_queued_bytes = 0 then
    true
  else if qos = 0 ∧ db.config.queue_qos0_messages = false then
    false
  else
    let source_bytes : Int := msg_data.msg_bytes12
    let source_count : Int := msg_data.msg_count12
    let adjust_bytes : Int :=
      if context.sock_valid then (db.config.max_inflight_bytes : Int) else 0
    let adjust_count : Int :=
      if context.sock_valid then (msg_data.inflight_maximum : Int) else 0
    let valid_bytes : Bool := source_bytes - adjust_bytes < (db.config.max_queued_bytes : Int)
    let valid_count : Bool := source_count - adjust_count < (db.config.max_queued_messages : Int)
    if db.config.max_queued_bytes = 0 then
      valid_count
    else if db.config.max_queued_messages = 0 then
      valid_bytes
    else
      valid_bytes && valid_count

/-- Loop body of dimq_pub_topic_check (src/lib/util_topic.c lines 62-73):
scan for a '+' or '#' byte, returning false (meaning dimq_ERR_INVAL) as soon
as one is found. The WITH_BROKER hierarchy counting is compiled out in the
library build modelled here (its limit constant lives outside src/). -/
def pub_topic_loop : List Char → Bool
  | [] => true
  | c :: rest => if c = '+' ∨ c = '#' then false else pub_topic_loop rest

/-- dimq_pub_topic_check from src/lib/util_topic.c lines 51-80, broker
build (WITH_BROKER active). A `none` argument models a NULL pointer. The
length check runs after the scan, then the hierarchy-depth check, as in
the source. TOPIC_HIERARCHY_LIMIT is defined outside src/ and spec
section 4.1 only calls it "a configured hierarchy limit", so it is the
parameter hier_limit here. The scan counts the separators it passes; the
count is only consulted once the scan completes, when it equals the
separator count of the whole string. -/
def dimq_pub_topic_check (hier_limit : Nat) (str : Option (List Char)) : Int :=
  match str with
  | none => dimq_ERR_INVAL
  | some l =>
    if pub_topic_loop l = false then dimq_ERR_INVAL
    else if 65535 < l.length then dimq_ERR_INVAL
    else if hier_limit < l.count '/' then dimq_ERR_INVAL
    else dimq_ERR_SUCCESS

/-- Does the previous character (none at the start of the string, as the C
code's c == 0 sentinel) make an adjacent wildcard invalid? Corresponds to
the test c != '\0' && c != '/' in dimq_sub_topic_check. -/
def prevNotSep (c : Option Char) : Bool :=
  match c with
  | none => false
  | some p => p ≠ '/'

/-- Corresponds to the test str[1] != '\0' && str[1] != '/' in
dimq_sub_topic_check: the next character exists and is not a separator. -/
def nextNotSep (rest : List Char) : Bool :=
  match rest.head? with
  | none => false
  | some n => n ≠ '/'

/-- Loop body of dimq_sub_topic_check (src/lib/util_topic.c lines 129-147),
threading the previous character c. Returning false means dimq_ERR_INVAL. -/
def sub_topic_loop : Option Char → List Char → Bool
  | _, [] => true
  | c, x :: rest =>
    if x = '+' then
      if prevNotSep c ∨ nextNotSep rest then false else sub_topic_loop (some x) rest
    else if x = '#' then
      if prevNotSep c ∨ rest ≠ [] then false else sub_topic_loop (some x) rest
    else
      sub_topic_loop (some x) rest

/-- dimq_sub_topic_check from src/lib/util_topic.c lines 117-154, broker
build (WITH_BROKER active): the wildcard-position scan, the length check,
then the hierarchy-depth check against the configured limit, modelled as
the parameter hier_limit exactly as in dimq_pub_topic_check. -/
def dimq_sub_topic_check (hier_limit : Nat) (str : Option (List Char)) : Int :=
  match str with
  | none => dimq_ERR_INVAL
  | some l =>
    if sub_topic_loop none l = false then dimq_ERR_INVAL
    else if 65535 < l.length then dimq_ERR_INVAL
    else if hier_limit < l.count '/' then dimq_ERR_INVAL
    else dimq_ERR_SUCCESS

/-- Three-valued result of the topic matcher: the C function's out-parameter
combined with its return code. `invalid` is dimq_ERR_INVAL; the other two are
dimq_ERR_SUCCESS with result true or false. -/
inductive MatchResult where
  | matched
  | noMatch
  | invalid
deriving DecidableEq

/-- Scan the remaining topic for a literal '+' or '#', which makes the input
invalid; used by the matcher when it is about to report a definite answer
(the loops at src/lib/util_topic.c lines 255-260 and 319-324). -/
def topicHasWild (topic : List Char) : Bool :=
  topic.any (fun c => c = '+' || c = '#')

/-- Scan the rest of the subscription for a '#' that is not the final
character (src/lib/util_topic.c lines 277-283); such a subscription is
invalid even though no match is possible at this point. -/
def subBadHash : List Char → Bool
  | [] => false
  | c :: rest => (c = '#' && rest ≠ []) || subBadHash rest

/-- The inner while loop at src/lib/util_topic.c lines 236-241: a '+' in the
filter consumes one topic level, i.e. characters up to the next '/' or the
end; a literal '+' or '#' in the topic is invalid (`none`). -/
def consumeLevel : List Char → Option (List Char)
  | [] => some []
  | c :: rest =>
    if c = '/' then some (c :: rest)
    else if c = '+' ∨ c = '#' then none
    else consumeLevel rest

/-- The main while loop of dimq_topic_matches_sub2 (src/lib/util_topic.c
lines 220-326). The C code walks two pointers; here the suffixes are passed
explicitly together with spos and the character preceding the current sub
position (prev, which is only consulted when spos > 0, matching the sub[-1]
accesses). The fuel argument dominates the loop's running time: every
iteration consumes at least one character of sub or of topic, so any fuel
larger than sub.length + topic.length reaches the same result as the C
loop. -/
def matchLoop : Nat → List Char → List Char → Nat → Option Char → MatchResult
  | 0, _, _, _, _ => MatchResult.invalid
  | Nat.succ fuel, sub, topic, spos, prev =>
    match sub with
    | [] =>
      if topicHasWild topic then MatchResult.invalid else MatchResult.noMatch
    | s0 :: srest =>
      if topic.head? = some '+' ∨ topic.head? = some '#' then
        MatchResult.invalid
      else if topic.head? ≠ some s0 then
        if s0 = '+' then
          if 0 < spos ∧ prev ≠ some '/' then MatchResult.invalid
          else if nextNotSep srest then MatchResult.invalid
          else
            match consumeLevel topic with
            | none => MatchResult.invalid
            | some topic1 =>
              if topic1 = [] ∧ srest = [] then MatchResult.matched
              else matchLoop fuel srest topic1 (spos + 1) (some '+')
        else if s0 = '#' then
          if 0 < spos ∧ prev ≠ some '/' then MatchResult.invalid
          else if srest ≠ [] then MatchResult.invalid
          else if topicHasWild topic then MatchResult.invalid
          else MatchResult.matched
        else
          if topic = [] ∧ 0 < spos ∧ prev = some '+' ∧ s0 = '/' ∧ srest.head? = some '#' then
            MatchResult.matched
          else if subBadHash (s0 :: srest) then MatchResult.invalid
          else MatchResult.noMatch
      else
        match topic with
        | [] => MatchResult.invalid
        | _t0 :: trest =>
          if trest = [] ∧ srest.take 2 = ['/', '#'] ∧ srest.length = 2 then
            MatchResult.matched
          else
            if srest = [] ∧ trest = [] then MatchResult.matched
            else if trest = [] ∧ srest.take 1 = ['+'] ∧ srest.length = 1 then
              if 0 < spos + 1 ∧ s0 ≠ '/' then MatchResult.invalid
              else MatchResult.matched
            else matchLoop fuel srest trest (spos + 1) (some s0)

/-- dimq_topic_matches_sub2 from src/lib/util_topic.c lines 198-327 (also
reachable as dimq_topic_matches_sub). NULL inputs are not modelled; the
function's empty-string check subsumes them for the properties at stake. -/
def dimq_topic_matches_sub (sub topic : List Char) : MatchResult :=
  if sub = [] ∨ topic = [] then MatchResult.invalid
  else if (sub.head? = some '$' ∧ topic.head? ≠ some '$')
      ∨ (topic.head? = some '$' ∧ sub.head? ≠ some '$') then
    MatchResult.noMatch
  else
    matchLoop (sub.length + topic.length + 1) sub topic 0 none

/-- db__msg_store_ref_inc from src/src/database.c lines 270-273. The C code
increments through a pointer to one list node; with unique db ids the map
touches exactly that entry. -/
def db__msg_store_ref_inc (db : Db) (id : Nat) : Db :=
  { db with msg_store := db.msg_store.map (fun e =>
      if e.core.db_id = id then { e with ref_count := e.ref_count + 1 } else e) }

/-- Decrement pass of db__msg_store_ref_dec combined with the unlink of
db__msg_store_remove (src/src/database.c lines 238-255 and 275-282): the
entry with the given id has its ref_count decremented and is dropped when
the new count is zero. Returns the new pool together with the number of
removed entries and their total payload bytes (the adjustments
db__msg_store_remove applies to db.msg_store_count / db.msg_store_bytes). -/
def refDecPool : List StoredMsg → Nat → List StoredMsg × Int × Int
  | [], _ => ([], 0, 0)
  | e :: rest, id =>
    let r := refDecPool rest id
    if e.core.db_id = id then
      if e.ref_count - 1 = 0 then
        (r.1, r.2.1 + 1, r.2.2 + (e.core.payloadlen : Int))
      else
        ({ e with ref_count := e.ref_count - 1 } :: r.1, r.2.1, r.2.2)
    else
      (e :: r.1, r.2.1, r.2.2)

/-- db__msg_store_ref_dec from src/src/database.c lines 275-282, including
the db__msg_store_remove it performs when the count reaches zero. -/
def db__msg_store_ref_dec (db : Db) (id : Nat) : Db :=
  let r := refDecPool db.msg_store id
  { db with
    msg_store := r.1,
    msg_store_count := db.msg_store_count - r.2.1,
    msg_store_bytes := db.msg_store_bytes - r.2.2 }

/-- db__msg_store_compact from src/src/database.c lines 285-297: sweep the
pool removing every entry whose ref_count is below one, with the pool
counter adjustments of db__msg_store_remove. -/
def db__msg_store_compact (db : Db) : Db :=
  { db with
    msg_store := db.msg_store.filter (fun e => ¬ e.ref_count < 1),
    msg_store_count := db.msg_store_count
      - ((db.msg_store.filter (fun e => e.ref_count < 1)).length : Int),
    msg_store_bytes := db.msg_store_bytes
      - ((db.msg_store.filter (fun e => e.ref_count < 1)).map
          (fun e => (e.core.payloadlen : Int))).sum }

/-- The counter updates of db__message_remove (src/src/database.c lines
307-313). In this embedding a ClientMsg always carries its store value, so
the C guard item->store != NULL is always taken. -/
def removeCounters (msg_data : MsgData) (item : ClientMsg) : MsgData :=
  { msg_data with
    msg_count := msg_data.msg_count - 1,
    msg_bytes := msg_data.msg_bytes - (item.store.payloadlen : Int),
    msg_count12 := if 0 < item.qos then msg_data.msg_count12 - 1 else msg_data.msg_count12,
    msg_bytes12 := if 0 < item.qos then msg_data.msg_bytes12 - (item.store.payloadlen : Int)
      else msg_data.msg_bytes12 }

/-- db__message_remove from src/src/database.c lines 300-319: unlink the
item from the inflight list, update the counters, and drop the item's
reference on its store. The DL_DELETE by pointer becomes removal of the
first structurally equal element. -/
def db__message_remove (db : Db) (msg_data : MsgData) (item : ClientMsg) : Db × MsgData :=
  (db__msg_store_ref_dec db item.store.db_id,
   { removeCounters msg_data item with inflight := msg_data.inflight.erase item })

/-- db__message_dequeue_first from src/src/database.c lines 322-334: move
the head of queued to the tail of inflight and consume one unit of
inflight_quota when any is left. The C code would dereference NULL on an
empty queue; call sites guarantee non-emptiness and the empty case is a
no-op here. -/
def db__message_dequeue_first (msg_data : MsgData) : MsgData :=
  match msg_data.queued with
  | [] => msg_data
  | m :: rest =>
    { msg_data with
      queued := rest,
      inflight := msg_data.inflight ++ [m],
      inflight_quota := if 0 < msg_data.inflight_quota then msg_data.inflight_quota - 1
        else msg_data.inflight_quota }

/-- Modelled from the spec: util__decrement_send_quota lives in
lib/util_dimq.c, which is not under src/. Spec section 3 describes
inflight_quota as a decreasing credit replenished on ack; the credit is
consumed one unit at a time and never goes below zero. -/
def util__decrement_send_quota (context : Context) : Context :=
  if 0 < context.msgs_out.inflight_quota then
    { context with msgs_out :=
        { context.msgs_out with inflight_quota := context.msgs_out.inflight_quota - 1 } }
  else context

/-- Modelled from the spec: util__increment_send_quota lives in
lib/util_dimq.c, which is not under src/. Spec sections 4.4 and 8 say the
peer's quota is returned, the quota incrementing by one. -/
def util__increment_send_quota (context : Context) : Context :=
  { context with msgs_out :=
      { context.msgs_out with inflight_quota := context.msgs_out.inflight_quota + 1 } }

/-- Modelled from the spec: util__decrement_receive_quota lives in
lib/util_dimq.c, which is not under src/; the inbound mirror of
util__decrement_send_quota. -/
def util__decrement_receive_quota (context : Context) : Context :=
  if 0 < context.msgs_in.inflight_quota then
    { context with msgs_in :=
        { context.msgs_in with inflight_quota := context.msgs_in.inflight_quota - 1 } }
  else context

/-- An outbound control packet handed to the opaque send primitives. -/
inductive Packet where
  | publishPkt (mid : Nat) (topic : Option String) (payloadlen : Nat) (qos : Nat)
      (retain : Bool) (dup : Bool) (expiry_interval : Nat)
  | pubrelPkt (mid : Nat)
  | pubrecPkt (mid : Nat)
deriving DecidableEq

/-- Outcome oracle for the opaque send primitives send__publish and
send__pubrel: spec section 6 describes them as enqueuing bytes to the
outbound buffer, possibly answering OversizePacket or another error. A
packet counts as emitted only when the primitive reports success. -/
def SendOracle : Type := Packet → Int

/-- The state switch of db__message_write_queued_out and of the promotion
loops (src/src/database.c lines 365-375, 814-824, 877-887, 1186-1197): a
switch on qos with cases 0, 1, 2 and no default. -/
def stateForQos (qos : Nat) (st : MsgState) : MsgState :=
  if qos = 0 then MsgState.ms_publish_qos0
  else if qos = 1 then MsgState.ms_publish_qos1
  else if qos = 2 then MsgState.ms_publish_qos2
  else st

/-- Replace the first occurrence of m by m1 in a list: the in-place field
update of a list node through its pointer. -/
def replaceMsg : List ClientMsg → ClientMsg → ClientMsg → List ClientMsg
  | [], _, _ => []
  | x :: rest, m, m1 => if x = m then m1 :: rest else x :: replaceMsg rest m m1

/-- db__message_write_inflight_out_single from src/src/database.c lines
988-1080. The returned packet list holds what was emitted (empty when the
message was expired, the send failed, or the state required no action). -/
def db__message_write_inflight_out_single (oracle : SendOracle) (db : Db) (context : Context)
    (msg : ClientMsg) : Int × Db × Context × List Packet :=
  if msg.store.message_expiry_time ≠ 0 ∧ msg.store.message_expiry_time < db.now_real_s then
    let context1 := if msg.direction = Dir.md_out ∧ 0 < msg.qos
      then util__increment_send_quota context else context
    let r := db__message_remove db context1.msgs_out msg
    (dimq_ERR_SUCCESS, r.1, { context1 with msgs_out := r.2 }, [])
  else
    let expiry_interval : Nat :=
      if msg.store.message_expiry_time ≠ 0 then msg.store.message_expiry_time - db.now_real_s
      else 0
    match msg.state with
    | MsgState.ms_publish_qos0 =>
      let pkt := Packet.publishPkt msg.mid msg.store.topic msg.store.payloadlen msg.qos
        msg.retain msg.dup expiry_interval
      let rc := oracle pkt
      if rc = dimq_ERR_SUCCESS ∨ rc = dimq_ERR_OVERSIZE_PACKET then
        let r := db__message_remove db context.msgs_out msg
        (dimq_ERR_SUCCESS, r.1, { context with msgs_out := r.2 },
          if rc = dimq_ERR_SUCCESS then [pkt] else [])
      else (rc, db, context, [])
    | MsgState.ms_publish_qos1 =>
      let pkt := Packet.publishPkt msg.mid msg.store.topic msg.store.payloadlen msg.qos
        msg.retain msg.dup expiry_interval
      let rc := oracle pkt
      if rc = dimq_ERR_SUCCESS then
        let msg1 := { msg with
          timestamp := db.now_s
          dup := true
          state := MsgState.ms_wait_for_puback }
        (dimq_ERR_SUCCESS, db,
          { context with msgs_out :=
              { context.msgs_out with inflight := replaceMsg context.msgs_out.inflight msg msg1 } },
          [pkt])
      else if rc = dimq_ERR_OVERSIZE_PACKET then
        let r := db__message_remove db context.msgs_out msg
        (dimq_ERR_SUCCESS, r.1, { context with msgs_out := r.2 }, [])
      else (rc, db, context, [])
    | MsgState.ms_publish_qos2 =>
      let pkt := Packet.publishPkt msg.mid msg.store.topic msg.store.payloadlen msg.qos
        msg.retain msg.dup expiry_interval
      let rc := oracle pkt
      if rc = dimq_ERR_SUCCESS then
        let msg1 := { msg with
          timestamp := db.now_s
          dup := true
          state := MsgState.ms_wait_for_pubrec }
        (dimq_ERR_SUCCESS, db,
          { context with msgs_out :=
              { context.msgs_out with inflight := replaceMsg context.msgs_out.inflight msg msg1 } },
          [pkt])
      else if rc = dimq_ERR_OVERSIZE_PACKET then
        let r := db__message_remove db context.msgs_out msg
        (dimq_ERR_SUCCESS, r.1, { context with msgs_out := r.2 }, [])
      else (rc, db, context, [])
    | MsgState.ms_resend_pubrel =>
      let pkt := Packet.pubrelPkt msg.mid
      let rc := oracle pkt
      if rc = dimq_ERR_SUCCESS then
        let msg1 := { msg with state := MsgState.ms_wait_for_pubcomp }
        (dimq_ERR_SUCCESS, db,
          { context with msgs_out :=
              { context.msgs_out with inflight := replaceMsg context.msgs_out.inflight msg msg1 } },
          [pkt])
      else (rc, db, context, [])
    | _ => (dimq_ERR_SUCCESS, db, context, [])

/-- The DL_FOREACH_SAFE iteration shared by db__message_write_inflight_out_all
and the flush phase of db__message_write_inflight_out_latest: process the
snapshot of nodes in order, threading the broker and session state, stopping
with the first non-success return code. -/
def writeInflightGo (oracle : SendOracle) : Db → Context → List ClientMsg → List Packet →
    Int × Db × Context × List Packet
  | db, context, [], acc => (dimq_ERR_SUCCESS, db, context, acc)
  | db, context, m :: rest, acc =>
    match db__message_write_inflight_out_single oracle db context m with
    | (rc, db1, context1, pkts) =>
      if rc ≠ dimq_ERR_SUCCESS then (rc, db1, context1, acc ++ pkts)
      else writeInflightGo oracle db1 context1 rest (acc ++ pkts)

/-- db__message_write_inflight_out_all from src/src/database.c lines
1083-1097. -/
def db__message_write_inflight_out_all (oracle : SendOracle) (db : Db) (context : Context) :
    Int × Db × Context × List Packet :=
  if context.state ≠ ClientState.cs_active ∨ context.sock_valid = false then
    (dimq_ERR_SUCCESS, db, context, [])
  else
    writeInflightGo oracle db context context.msgs_out.inflight []

/-- Is the state one of the three pending-publish states the backwards walk
of db__message_write_inflight_out_latest skips over? -/
def isPublishState (s : MsgState) : Bool :=
  s = MsgState.ms_publish_qos0 || s = MsgState.ms_publish_qos1 || s = MsgState.ms_publish_qos2

/-- db__message_write_inflight_out_latest from src/src/database.c lines
1100-1142. The C code walks backwards from the list tail past entries in a
publish state; that walk stops either at the head (in which case the whole
list is flushed) or at the last entry not in a publish state (in which case
the maximal publish-state suffix after it is flushed). The singleton early
exit coincides with flushing the whole list. -/
def db__message_write_inflight_out_latest (oracle : SendOracle) (db : Db) (context : Context) :
    Int × Db × Context × List Packet :=
  if context.state ≠ ClientState.cs_active ∨ context.sock_valid = false
      ∨ context.msgs_out.inflight = [] then
    (dimq_ERR_SUCCESS, db, context, [])
  else
    let l := context.msgs_out.inflight
    if l.length = 1 then
      writeInflightGo oracle db context l []
    else
      let sfx := (l.reverse.takeWhile (fun m => isPublishState m.state)).reverse
      let toProcess := if l.length - sfx.length ≤ 1 then l else sfx
      writeInflightGo oracle db context toProcess []

/-- Promotion loop of db__message_write_queued_out (src/src/database.c lines
1182-1199): each visited node is the current queue head; it is given a
publish state for its qos and dequeued into inflight, stopping when the
quota is exhausted under a non-zero inflight_maximum. The list argument is
the snapshot of msg_data.queued being iterated. -/
def writeQueuedOutGo : List ClientMsg → MsgData → MsgData
  | [], md => md
  | m :: rest, md =>
    if md.inflight_maximum ≠ 0 ∧ md.inflight_quota = 0 then md
    else
      let m1 := { m with state := stateForQos m.qos m.state }
      writeQueuedOutGo rest (db__message_dequeue_first { md with queued := m1 :: rest })

/-- db__message_write_queued_out from src/src/database.c lines 1174-1201.
It performs no sends and always returns success. -/
def db__message_write_queued_out (context : Context) : Context :=
  if context.state ≠ ClientState.cs_active then context
  else { context with msgs_out := writeQueuedOutGo context.msgs_out.queued context.msgs_out }

/-- The inflight walk of db__message_delete_outgoing (src/src/database.c
lines 344-356): find the first entry with the given mid. Results: `none`
when no entry matches (msg_index then equals the list length),
`some (Except.error ())` for the protocol-error exits, and
`some (Except.ok (item, idx))` where idx counts the entries before the
match (msg_index after its decrement). -/
def delOutScan (mid : Nat) (expect_state : MsgState) (qos : Nat) :
    List ClientMsg → Option (Except Unit (ClientMsg × Nat))
  | [] => none
  | m :: rest =>
    if m.mid = mid then
      if m.qos ≠ qos ∨ (qos = 2 ∧ m.state ≠ expect_state) then some (Except.error ())
      else some (Except.ok (m, 0))
    else
      match delOutScan mid expect_state qos rest with
      | none => none
      | some (Except.error u) => some (Except.error u)
      | some (Except.ok (it, idx)) => some (Except.ok (it, idx + 1))

/-- The queued walk of db__message_delete_outgoing (src/src/database.c lines
358-377): while msg_index stays below a non-zero inflight_maximum, stamp the
current head with the current time, give it a publish state for its qos and
dequeue it into inflight. The list argument is the snapshot of
msg_data.queued. -/
def delOutPromote (db : Db) : List ClientMsg → MsgData → Nat → MsgData
  | [], md, _ => md
  | m :: rest, md, idx =>
    if md.inflight_maximum ≠ 0 ∧ md.inflight_maximum ≤ idx then md
    else
      let m1 := { m with
        timestamp := db.now_s
        state := stateForQos m.qos m.state }
      delOutPromote db rest (db__message_dequeue_first { md with queued := m1 :: rest }) (idx + 1)

/-- db__message_delete_outgoing from src/src/database.c lines 337-383. -/
def db__message_delete_outgoing (oracle : SendOracle) (db : Db) (context : Option Context)
    (mid : Nat) (expect_state : MsgState) (qos : Nat) : Int × Db × Option Context × List Packet :=
  match context with
  | none => (dimq_ERR_INVAL, db, none, [])
  | some context =>
    match delOutScan mid expect_state qos context.msgs_out.inflight with
    | some (Except.error _) => (dimq_ERR_PROTOCOL, db, some context, [])
    | some (Except.ok (item, idx)) =>
      let r := db__message_remove db context.msgs_out item
      let md1 := delOutPromote r.1 r.2.queued r.2 idx
      let w := db__message_write_inflight_out_latest oracle r.1 { context with msgs_out := md1 }
      (w.1, w.2.1, some w.2.2.1, w.2.2.2)
    | none =>
      let md1 := delOutPromote db context.msgs_out.queued context.msgs_out
        context.msgs_out.inflight.length
      let w := db__message_write_inflight_out_latest oracle db { context with msgs_out := md1 }
      (w.1, w.2.1, some w.2.2.1, w.2.2.2)

/-- Update the direction-selected MessageData of a context: writing through
the msg_data pointer chosen at the top of db__message_insert. -/
def setMsgs (context : Context) (dir : Dir) (md : MsgData) : Context :=
  if dir = Dir.md_out then { context with msgs_out := md } else { context with msgs_in := md }

/-- The dest_ids append of db__message_insert (src/src/database.c lines
533-552): record the client id on the stored message, addressed by its
unique db_id. The realloc/strdup failure paths model the always-successful
allocation. -/
def destIdsAppend (db : Db) (id : Nat) (cid : String) : Db :=
  { db with msg_store := db.msg_store.map (fun e =>
      if e.core.db_id = id then { e with dest_ids := e.dest_ids ++ [cid] } else e) }

/-- The drop path of db__message_insert (lines 467-478 and 482-492): latch
is_dropping, count the dropped message, return 2. -/
def insertDrop (db : Db) (context : Context) : Int × Db × Option Context × List Packet :=
  (2, { db with msgs_dropped := db.msgs_dropped + 1 },
   some { context with is_dropping := true }, [])

/-- The allocation tail of db__message_insert (src/src/database.c lines
502-573), entered once the state has been selected: build the ClientMsg,
take a store reference, cap the message qos at the session's max_qos,
append to the chosen list, update counters (note: the qos-1-and-2 counters
use the uncapped qos argument), record dest_ids, wake a lazy bridge, burn
send quota, and optionally write through. rc0 is the rc value accumulated
by the state selection (2 when the message was queued on a connected
session, 0 otherwise). -/
def db__message_insert_alloc (oracle : SendOracle) (db : Db) (context : Context) (cid : String)
    (mid : Nat) (dir : Dir) (qos : Nat) (retain : Bool) (stored : StoredMsg) (update : Bool)
    (state : MsgState) (rc0 : Int) : Int × Db × Option Context × List Packet :=
  let msgqos := if context.max_qos < qos then context.max_qos else qos
  let msg : ClientMsg := {
    mid := mid
    qos := msgqos
    retain := retain
    dup := false
    direction := dir
    state := state
    timestamp := db.now_s
    store := stored.core }
  let db1 := db__msg_store_ref_inc db stored.core.db_id
  let md := msgsFor context dir
  let md1 := if state = MsgState.ms_queued then { md with queued := md.queued ++ [msg] }
    else { md with inflight := md.inflight ++ [msg] }
  let md2 := { md1 with
    msg_count := md1.msg_count + 1
    msg_bytes := md1.msg_bytes + (stored.core.payloadlen : Int)
    msg_count12 := if 0 < qos then md1.msg_count12 + 1 else md1.msg_count12
    msg_bytes12 := if 0 < qos then md1.msg_bytes12 + (stored.core.payloadlen : Int)
      else md1.msg_bytes12 }
  let context1 := setMsgs context dir md2
  let db2 := if db1.config.allow_duplicate_messages = false ∧ dir = Dir.md_out ∧ retain = false
    then destIdsAppend db1 stored.core.db_id cid else db1
  let context2 := match context1.bridge with
    | some b =>
      if b.start_type_lazy ∧ context1.sock_valid = false
          ∧ b.threshold ≤ context1.msgs_out.msg_count then
        { context1 with bridge := some { b with lazy_reconnect := true } }
      else context1
    | none => context1
  let context3 := if dir = Dir.md_out ∧ 0 < msg.qos then util__decrement_send_quota context2
    else context2
  if dir = Dir.md_out ∧ update then
    let w := db__message_write_inflight_out_latest oracle db2 context3
    if w.1 ≠ dimq_ERR_SUCCESS then (w.1, w.2.1, some w.2.2.1, w.2.2.2)
    else
      let context4 := db__message_write_queued_out w.2.2.1
      (dimq_ERR_SUCCESS, w.2.1, some context4, w.2.2.2)
  else
    (rc0, db2, some context3, [])

/-- Offline QoS-0 gate of db__message_insert (src/src/database.c lines
425-435): with queue_qos0_messages off, a disconnected session takes a QoS-0
message only when it is a lazy-start bridge. -/
def bridgeBlocksQos0 (b : Option Bridge) : Bool :=
  match b with
  | none => true
  | some b => !b.start_type_lazy

/-- Offline bridge gate of db__message_insert (src/src/database.c lines
436-439): drop for a bridge configured with clean_start_local. -/
def bridgeCleanStartLocal (b : Option Bridge) : Bool :=
  match b with
  | some b => b.clean_start_local
  | none => false

/-- db__message_insert from src/src/database.c lines 385-574. -/
def db__message_insert (oracle : SendOracle) (db : Db) (context : Option Context) (mid : Nat)
    (dir : Dir) (qos : Nat) (retain : Bool) (stored : StoredMsg) (update : Bool) :
    Int × Db × Option Context × List Packet :=
  match context with
  | none => (dimq_ERR_INVAL, db, none, [])
  | some context =>
    match context.id with
    | none => (dimq_ERR_SUCCESS, db, some context, [])
    | some cid =>
      if context.protocol ≠ Protocol.p_mqtt5
          ∧ db.config.allow_duplicate_messages = false
          ∧ dir = Dir.md_out ∧ retain = false ∧ stored.dest_ids ≠ []
          ∧ cid ∈ stored.dest_ids then
        (dimq_ERR_SUCCESS, db, some context, [])
      else if context.sock_valid = false
          ∧ ((qos = 0 ∧ db.config.queue_qos0_messages = false
                ∧ bridgeBlocksQos0 context.bridge = true)
             ∨ bridgeCleanStartLocal context.bridge = true) then
        (2, db, some context, [])
      else
        let msg_data := msgsFor context dir
        if context.sock_valid then
          if db__ready_for_flight db context dir qos then
            if dir = Dir.md_out then
              db__message_insert_alloc oracle db context cid mid dir qos retain stored update
                (stateForQos qos MsgState.ms_invalid) 0
            else if qos = 2 then
              db__message_insert_alloc oracle db context cid mid dir qos retain stored update
                MsgState.ms_wait_for_pubrel 0
            else
              (1, db, some context, [])
          else if qos ≠ 0 ∧ db__ready_for_queue db context qos msg_data then
            db__message_insert_alloc oracle db context cid mid dir qos retain stored update
              MsgState.ms_queued 2
          else
            insertDrop db context
        else
          if db__ready_for_queue db context qos msg_data then
            db__message_insert_alloc oracle db context cid mid dir qos retain stored update
              MsgState.ms_queued 0
          else
            insertDrop db context

/-- The outbound state reset of db__message_reconnect_reset_outgoing
(src/src/database.c lines 784-798): a switch on qos; for qos 2 an entry in
wait_for_pubcomp becomes resend_pubrel, anything else becomes
publish_qos2. A qos outside 0-2 hits no case and leaves the state. -/
def remapOutState (m : ClientMsg) : ClientMsg :=
  if m.qos = 0 then { m with state := MsgState.ms_publish_qos0 }
  else if m.qos = 1 then { m with state := MsgState.ms_publish_qos1 }
  else if m.qos = 2 then
    if m.state = MsgState.ms_wait_for_pubcomp then { m with state := MsgState.ms_resend_pubrel }
    else { m with state := MsgState.ms_publish_qos2 }
  else m

/-- The per-entry counter rebuild shared by the reconnect-reset loops:
msg_count and msg_bytes always grow, the qos-1-and-2 counters only for
qos above zero. -/
def reconnectCountMsg (md : MsgData) (m : ClientMsg) : MsgData :=
  { md with
    msg_count := md.msg_count + 1
    msg_bytes := md.msg_bytes + (m.store.payloadlen : Int)
    msg_count12 := if 0 < m.qos then md.msg_count12 + 1 else md.msg_count12
    msg_bytes12 := if 0 < m.qos then md.msg_bytes12 + (m.store.payloadlen : Int)
      else md.msg_bytes12 }

/-- The inflight walk of db__message_reconnect_reset_outgoing
(src/src/database.c lines 775-799): rebuild counters, burn send quota for
qos above zero, and reset each state via remapOutState. The list argument
is the snapshot of msgs_out.inflight; acc collects the rewritten entries,
installed when the walk finishes. -/
def resetOutInflight (context : Context) (acc : List ClientMsg) :
    List ClientMsg → Context
  | [] => { context with msgs_out := { context.msgs_out with inflight := acc } }
  | m :: rest =>
    let context1 := { context with msgs_out := reconnectCountMsg context.msgs_out m }
    let context2 := if 0 < m.qos then util__decrement_send_quota context1 else context1
    resetOutInflight context2 (acc ++ [remapOutState m]) rest

/-- The queued walk of db__message_reconnect_reset_outgoing
(src/src/database.c lines 806-827). The DL_FOREACH_SAFE visits every node
of the original queue in order while db__message_dequeue_first removes the
current head, which is the earliest node not yet dequeued; the visited node
sits in msgs_out.queued at the position preceding the unvisited suffix, so
its in-place state write is a positional set. The list argument is the
snapshot of the original queue. -/
def resetOutQueued (db : Db) (context : Context) : List ClientMsg → Context
  | [] => context
  | m :: rest =>
    let context1 := { context with msgs_out := reconnectCountMsg context.msgs_out m }
    if db__ready_for_flight db context1 Dir.md_out m.qos then
      let q := context1.msgs_out.queued
      let pos := q.length - rest.length - 1
      let m1 := { m with state := stateForQos m.qos m.state }
      let md2 := db__message_dequeue_first ({ context1.msgs_out with queued := q.set pos m1 })
      let context2 := { context1 with msgs_out := md2 }
      resetOutQueued db context2 rest
    else
      resetOutQueued db context1 rest

/-- db__message_reconnect_reset_outgoing from src/src/database.c lines
765-830: zero the counters, reset the quota to the maximum, rebuild from
the inflight list, then promote from the queued list while
db__ready_for_flight allows. -/
def db__message_reconnect_reset_outgoing (db : Db) (context : Context) : Context :=
  let mo := context.msgs_out
  let context0 := { context with msgs_out := { mo with
    msg_count := 0
    msg_count12 := 0
    msg_bytes := 0
    msg_bytes12 := 0
    inflight_quota := (mo.inflight_maximum : Int) } }
  let context1 := resetOutInflight context0 [] context0.msgs_out.inflight
  resetOutQueued db context1 context1.msgs_out.queued

/-- The inflight walk of db__message_reconnect_reset_incoming
(src/src/database.c lines 844-861): rebuild counters, burn receive quota
for qos above zero, then discard anything below QoS 2 via
db__message_remove (which also undoes the counters just added and drops
the store reference); QoS 2 entries keep their state. acc collects the
surviving entries positionally. -/
def resetInInflight (db : Db) (context : Context) (acc : List ClientMsg) :
    List ClientMsg → Db × Context
  | [] => (db, { context with msgs_in := { context.msgs_in with inflight := acc } })
  | m :: rest =>
    let context1 := { context with msgs_in := reconnectCountMsg context.msgs_in m }
    let context2 := if 0 < m.qos then util__decrement_receive_quota context1 else context1
    if m.qos ≠ 2 then
      let db1 := db__msg_store_ref_dec db m.store.db_id
      let context3 := { context2 with msgs_in := removeCounters context2.msgs_in m }
      resetInInflight db1 context3 acc rest
    else
      resetInInflight db context2 (acc ++ [m]) rest

/-- The queued walk of db__message_reconnect_reset_incoming
(src/src/database.c lines 869-890), the inbound twin of resetOutQueued. -/
def resetInQueued (db : Db) (context : Context) : List ClientMsg → Context
  | [] => context
  | m :: rest =>
    let context1 := { context with msgs_in := reconnectCountMsg context.msgs_in m }
    if db__ready_for_flight db context1 Dir.md_in m.qos then
      let q := context1.msgs_in.queued
      let pos := q.length - rest.length - 1
      let m1 := { m with state := stateForQos m.qos m.state }
      let md2 := db__message_dequeue_first ({ context1.msgs_in with queued := q.set pos m1 })
      let context2 := { context1 with msgs_in := md2 }
      resetInQueued db context2 rest
    else
      resetInQueued db context1 rest

/-- db__message_reconnect_reset_incoming from src/src/database.c lines
834-893. -/
def db__message_reconnect_reset_incoming (db : Db) (context : Context) : Db × Context :=
  let mi := context.msgs_in
  let context0 := { context with msgs_in := { mi with
    msg_count := 0
    msg_count12 := 0
    msg_bytes := 0
    msg_bytes12 := 0
    inflight_quota := (mi.inflight_maximum : Int) } }
  let r := resetInInflight db context0 [] context0.msgs_in.inflight
  (r.1, resetInQueued r.1 r.2 r.2.msgs_in.queued)

/-- db__message_reconnect_reset from src/src/database.c lines 896-903. -/
def db__message_reconnect_reset (db : Db) (context : Context) : Db × Context :=
  db__message_reconnect_reset_incoming db (db__message_reconnect_reset_outgoing db context)

/-- Access kind passed to the opaque ACL checker. -/
inductive Access where
  | acl_read
  | acl_write
deriving DecidableEq

/-- Verdict function of the opaque external ACL checker dimq_acl_check
(spec section 6: a pure function of current ACL state), applied to the
context and to the stored message's topic, payload length, qos and retain
flag. -/
def AclFn : Type := Context → Option String → Nat → Nat → Bool → Access → Int

/-- connection_check_acl from src/src/handle_connect.c lines 86-107: walk
one message list, removing (with a store-reference drop) every entry whose
stored message the ACL checker now denies. Outbound entries are checked for
read access, inbound for write access. Note that the counters of the
owning MessageData are not touched. -/
def connection_check_acl (acl : AclFn) (context : Context) (db : Db) :
    List ClientMsg → Db × List ClientMsg
  | [] => (db, [])
  | m :: rest =>
    let access := if m.direction = Dir.md_out then Access.acl_read else Access.acl_write
    if acl context m.store.topic m.store.payloadlen m.store.qos m.store.retain access
        ≠ dimq_ERR_SUCCESS then
      connection_check_acl acl context (db__msg_store_ref_dec db m.store.db_id) rest
    else
      let r := connection_check_acl acl context db rest
      (r.1, m :: r.2)

/-- A sample stored-message core used by concrete instances. -/
def sampleSm : SMsg :=
  { db_id := 9
    topic := some "a/b"
    payloadlen := 2
    qos := 1
    retain := false
    message_expiry_time := 0
    source_id := "s" }

/-- Build a sample outbound client message. -/
def sampleMsg (mid : Nat) (qos : Nat) (st : MsgState) : ClientMsg :=
  { mid := mid
    qos := qos
    retain := false
    dup := false
    direction := Dir.md_out
    state := st
    timestamp := 0
    store := sampleSm }

/-- A configuration with every limit disabled. -/
def sampleCfg : Config :=
  { max_inflight_bytes := 0
    max_queued_bytes := 0
    max_queued_messages := 0
    queue_qos0_messages := false
    allow_duplicate_messages := false }

/-- An empty per-direction bookkeeping structure. -/
def emptyMd : MsgData :=
  { inflight := []
    queued := []
    msg_count := 0
    msg_count12 := 0
    msg_bytes := 0
    msg_bytes12 := 0
    inflight_maximum := 0
    inflight_quota := 0 }

/-- A connected active sample session with empty queues. -/
def sampleCtx : Context :=
  { id := some "c1"
    protocol := Protocol.p_mqtt311
    sock_valid := true
    state := ClientState.cs_active
    max_qos := 2
    is_dropping := false
    out_packet_count := 0
    bridge := none
    msgs_in := emptyMd
    msgs_out := emptyMd }

/-- A sample broker state with an empty pool and all limits disabled. -/
def sampleDb : Db :=
  { config := sampleCfg
    now_s := 7
    now_real_s := 7
    msg_store := []
    msg_store_count := 0
    msg_store_bytes := 0
    msgs_dropped := 0 }

/-- A send oracle whose sends always succeed. -/
def sampleOracle : SendOracle := fun _ => dimq_ERR_SUCCESS

/-- C3: db__ready_for_flight returns true unconditionally when both
inflight_maximum and max_inflight_bytes are zero; for qos at least one it
returns true exactly when the inflight byte total stays below
max_inflight_bytes and the quota is positive, where a zero
max_inflight_bytes disables the byte conjunct and a zero inflight_maximum
disables the quota conjunct (admission governed solely by bytes). -/
theorem ready_for_flight_spec (db : Db) (context : Context) (dir : Dir) (qos : Nat) :
    (((msgsFor context dir).inflight_maximum = 0 ∧ db.config.max_inflight_bytes = 0) →
      db__ready_for_flight db context dir qos = true)
    ∧ (1 ≤ qos →
      (db__ready_for_flight db context dir qos = true ↔
        ((db.config.max_inflight_bytes = 0
            ∨ (msgsFor context dir).msg_bytes12 < (db.config.max_inflight_bytes : Int))
          ∧ ((msgsFor context dir).inflight_maximum = 0
            ∨ 0 < (msgsFor context dir).inflight_quota)))) := by
  constructor
  · intro h
    unfold db__ready_for_flight
    simp [h]
  · intro hq
    have hq0 : ¬ qos = 0 := by omega
    unfold db__ready_for_flight
    by_cases h1 : (msgsFor context dir).inflight_maximum = 0 <;>
      by_cases h2 : db.config.max_inflight_bytes = 0 <;>
      simp [h1, h2, hq0]

/-- Concrete instance for ready_for_flight_spec: both limits disabled. -/
theorem ready_for_flight_spec_witness :
    db__ready_for_flight sampleDb sampleCtx Dir.md_out 1 = true
    ∧ (db__ready_for_flight sampleDb sampleCtx Dir.md_out 1 = true ↔
        ((sampleDb.config.max_inflight_bytes = 0
            ∨ (msgsFor sampleCtx Dir.md_out).msg_bytes12 < (sampleDb.config.max_inflight_bytes : Int))
          ∧ ((msgsFor sampleCtx Dir.md_out).inflight_maximum = 0
            ∨ 0 < (msgsFor sampleCtx Dir.md_out).inflight_quota))) :=
  ⟨(ready_for_flight_spec sampleDb sampleCtx Dir.md_out 1).1 (by decide),
   (ready_for_flight_spec sampleDb sampleCtx Dir.md_out 1).2 (by decide)⟩

/-- C10: db__message_insert on a NULL context returns Inval; on a context
whose client id is NULL it returns success, leaving the broker state (hence
every queue counter and ref_count) and the session untouched and emitting
nothing. -/
theorem message_insert_null_guards (oracle : SendOracle) (db : Db) (mid : Nat) (dir : Dir)
    (qos : Nat) (retain : Bool) (stored : StoredMsg) (update : Bool) :
    db__message_insert oracle db none mid dir qos retain stored update
      = (dimq_ERR_INVAL, db, none, [])
    ∧ ∀ context : Context, context.id = none →
      db__message_insert oracle db (some context) mid dir qos retain stored update
        = (dimq_ERR_SUCCESS, db, some context, []) := by
  constructor
  · rfl
  · intro context hid
    simp [db__message_insert, hid]

/-- Concrete instance for message_insert_null_guards: a session that lost
its id keeps its state and the broker state on insert. -/
theorem message_insert_null_guards_witness :
    db__message_insert sampleOracle sampleDb (some { sampleCtx with id := none }) 7 Dir.md_out 1
        false { core := sampleSm, ref_count := 1, dest_ids := [] } false
      = (dimq_ERR_SUCCESS, sampleDb, some { sampleCtx with id := none }, []) :=
  (message_insert_null_guards sampleOracle sampleDb 7 Dir.md_out 1 false
      { core := sampleSm, ref_count := 1, dest_ids := [] } false).2
    { sampleCtx with id := none } rfl

/-- C5: for a session that is not MQTT 5, with duplicate suppression on
(allow_duplicate_messages false), a non-retained outbound insert of a
stored message whose dest_ids already contains the session's client id is
a silent success that changes neither the broker state nor the session. -/
theorem message_insert_duplicate_suppression (oracle : SendOracle) (db : Db) (context : Context)
    (cid : String) (mid : Nat) (qos : Nat) (stored : StoredMsg) (update : Bool)
    (hid : context.id = some cid)
    (hproto : context.protocol ≠ Protocol.p_mqtt5)
    (hdup : db.config.allow_duplicate_messages = false)
    (hmem : cid ∈ stored.dest_ids) :
    db__message_insert oracle db (some context) mid Dir.md_out qos false stored update
      = (dimq_ERR_SUCCESS, db, some context, []) := by
  have hne : stored.dest_ids ≠ [] := List.ne_nil_of_mem hmem
  simp [db__message_insert, hid, hproto, hdup, hne, hmem]

/-- Concrete instance for message_insert_duplicate_suppression. -/
theorem message_insert_duplicate_suppression_witness :
    db__message_insert sampleOracle sampleDb (some sampleCtx) 7 Dir.md_out 1 false
        { core := sampleSm, ref_count := 1, dest_ids := ["c1"] } true
      = (dimq_ERR_SUCCESS, sampleDb, some sampleCtx, []) :=
  message_insert_duplicate_suppression sampleOracle sampleDb sampleCtx "c1" 7 1
    { core := sampleSm, ref_count := 1, dest_ids := ["c1"] } true rfl
    (by decide) rfl (by decide)

/-- C9: when the per-entry send routine meets an expired message
(message_expiry_time non-zero and strictly before now), it emits no packet,
reports success, unlinks the entry from the outbound inflight list (leaving
queued untouched), and for an outbound message of qos at least one returns
one unit of send quota while msg_count12 drops by one. -/
theorem write_inflight_out_single_expiry (oracle : SendOracle) (db : Db) (context : Context)
    (msg : ClientMsg)
    (hexp : msg.store.message_expiry_time ≠ 0)
    (hlt : msg.store.message_expiry_time < db.now_real_s)
    (hdir : msg.direction = Dir.md_out)
    (hq : 0 < msg.qos) :
    (db__message_write_inflight_out_single oracle db context msg).1 = dimq_ERR_SUCCESS
    ∧ (db__message_write_inflight_out_single oracle db context msg).2.2.2 = []
    ∧ (db__message_write_inflight_out_single oracle db context msg).2.2.1.msgs_out.inflight
        = context.msgs_out.inflight.erase msg
    ∧ (db__message_write_inflight_out_single oracle db context msg).2.2.1.msgs_out.queued
        = context.msgs_out.queued
    ∧ (db__message_write_inflight_out_single oracle db context msg).2.2.1.msgs_out.inflight_quota
        = context.msgs_out.inflight_quota + 1
    ∧ (db__message_write_inflight_out_single oracle db context msg).2.2.1.msgs_out.msg_count12
        = context.msgs_out.msg_count12 - 1 := by
  simp [db__message_write_inflight_out_single, hexp, hlt, hdir, hq,
    db__message_remove, removeCounters, util__increment_send_quota]

/-- A stored-message core that expired at time 5. -/
def expiredSm : SMsg :=
  { sampleSm with db_id := 4, payloadlen := 3, message_expiry_time := 5 }

/-- An outbound QoS 1 inflight message referencing the expired store. -/
def expiredMsg : ClientMsg :=
  { mid := 9
    qos := 1
    retain := false
    dup := false
    direction := Dir.md_out
    state := MsgState.ms_publish_qos1
    timestamp := 0
    store := expiredSm }

/-- A session holding exactly the expired message inflight. -/
def expiredCtx : Context :=
  { sampleCtx with msgs_out := { emptyMd with
      inflight := [expiredMsg]
      msg_count := 1
      msg_count12 := 1
      msg_bytes := 3
      msg_bytes12 := 3
      inflight_quota := 1 } }

/-- Concrete instance for write_inflight_out_single_expiry: the send
attempt at time 7 on a message that expired at time 5. -/
theorem write_inflight_out_single_expiry_witness :
    (db__message_write_inflight_out_single sampleOracle sampleDb expiredCtx expiredMsg).1
      = dimq_ERR_SUCCESS
    ∧ (db__message_write_inflight_out_single sampleOracle sampleDb expiredCtx expiredMsg).2.2.2 = []
    ∧ (db__message_write_inflight_out_single sampleOracle sampleDb expiredCtx
        expiredMsg).2.2.1.msgs_out.inflight = expiredCtx.msgs_out.inflight.erase expiredMsg
    ∧ (db__message_write_inflight_out_single sampleOracle sampleDb expiredCtx
        expiredMsg).2.2.1.msgs_out.queued = expiredCtx.msgs_out.queued
    ∧ (db__message_write_inflight_out_single sampleOracle sampleDb expiredCtx
        expiredMsg).2.2.1.msgs_out.inflight_quota = expiredCtx.msgs_out.inflight_quota + 1
    ∧ (db__message_write_inflight_out_single sampleOracle sampleDb expiredCtx
        expiredMsg).2.2.1.msgs_out.msg_count12 = expiredCtx.msgs_out.msg_count12 - 1 :=
  write_inflight_out_single_expiry sampleOracle sampleDb expiredCtx expiredMsg
    (by decide) (by decide) (by decide) (by decide)

/-- C6 counterexample: the frozen claim says the filter containing the
misplaced wildcard, letter a followed by plus, yields Invalid against any
topic; against topic b the matcher walks the mismatch branch, finds no
ill-placed hash while scanning, and reports an ordinary non-match. -/
theorem topic_matches_aplus_counterexample :
    dimq_topic_matches_sub ("a+".toList) ("b".toList) = MatchResult.noMatch
    ∧ MatchResult.noMatch ≠ MatchResult.invalid := by
  exact ⟨by decide, by decide⟩

/-- C6 (amended): the matcher returns Invalid for an empty filter or empty
topic; returns false, not Invalid, whenever exactly one of filter and topic
begins with the dollar sign; evaluates the four listed wildcard examples as
the spec states; and returns Invalid for the filter with a misplaced plus
(letter a followed by plus) against topics that reach the wildcard, such as
the topic a, though not against every topic. -/
theorem topic_matches_spec :
    (∀ sub topic : List Char, sub = [] ∨ topic = [] →
      dimq_topic_matches_sub sub topic = MatchResult.invalid)
    ∧ (∀ sub topic : List Char, sub ≠ [] → topic ≠ [] →
      ((sub.head? = some '$' ∧ topic.head? ≠ some '$')
        ∨ (topic.head? = some '$' ∧ sub.head? ≠ some '$')) →
      dimq_topic_matches_sub sub topic = MatchResult.noMatch)
    ∧ dimq_topic_matches_sub ("sport/+/player1".toList) ("sport/tennis/player1".toList)
        = MatchResult.matched
    ∧ dimq_topic_matches_sub ("sport/#".toList) ("sport".toList) = MatchResult.matched
    ∧ dimq_topic_matches_sub ("+/+".toList) ("/finance".toList) = MatchResult.matched
    ∧ dimq_topic_matches_sub ("#".toList) ("$SYS/x".toList) = MatchResult.noMatch
    ∧ dimq_topic_matches_sub ("a+".toList) ("a".toList) = MatchResult.invalid := by
  refine ⟨?_, ?_, by decide, by decide, by decide, by decide, by decide⟩
  · intro sub topic h
    simp [dimq_topic_matches_sub, h]
  · intro sub topic h1 h2 hd
    have hne : ¬ (sub = [] ∨ topic = []) := by tauto
    simp only [dimq_topic_matches_sub]
    rw [if_neg hne, if_pos hd]

/-- Concrete instance for topic_matches_spec: the empty-filter rule and the
dollar asymmetry rule at sample inputs. -/
theorem topic_matches_spec_witness :
    dimq_topic_matches_sub [] ("a".toList) = MatchResult.invalid
    ∧ dimq_topic_matches_sub ("$SYS/a".toList) ("b".toList) = MatchResult.noMatch :=
  ⟨topic_matches_spec.1 [] ("a".toList) (Or.inl rfl),
   topic_matches_spec.2.1 ("$SYS/a".toList) ("b".toList) (by decide) (by decide) (by decide)⟩

/-- The publish scan fails exactly when the string contains a wildcard
byte. -/
theorem pub_topic_loop_false_iff (l : List Char) :
    pub_topic_loop l = false ↔ ('+' ∈ l ∨ '#' ∈ l) := by
  induction l with
  | nil => simp [pub_topic_loop]
  | cons x rest ih =>
    by_cases h : x = '+' ∨ x = '#'
    · rcases h with h | h <;> simp [pub_topic_loop, h]
    · have h1 : ¬ x = '+' := fun hc => h (Or.inl hc)
      have h2 : ¬ x = '#' := fun hc => h (Or.inr hc)
      simp [pub_topic_loop, h1, h2, ih]
      constructor
      · intro hh
        rcases hh with hh | hh
        · exact Or.inl (Or.inr hh)
        · exact Or.inr (Or.inr hh)
      · intro hh
        rcases hh with (hh | hh) | (hh | hh)
        · exact absurd hh.symm h1
        · exact Or.inl hh
        · exact absurd hh.symm h2
        · exact Or.inr hh

/-- The claim-side reading of one adjacent pair of the subscribe filter:
the left character is a '+' with a non-separator right neighbour, the right
character is a '+' with a non-separator left neighbour, the left character
is a '#' that is hence not last, or the right character is a '#' preceded
by a non-separator. -/
def subFilterBadPair (p : Char × Char) : Bool :=
  (p.1 = '+' && p.2 ≠ '/') || (p.2 = '+' && p.1 ≠ '/')
    || p.1 = '#' || (p.2 = '#' && p.1 ≠ '/')

/-- The claim-side subscribe-filter fault predicate: some adjacent pair of
characters is bad in the sense of subFilterBadPair. -/
def subFilterBad (l : List Char) : Bool :=
  (l.zip l.tail).any subFilterBadPair

/-- Whether the scan starting at the given previous character immediately
faults on a leading wildcard with a bad left neighbour; the remainder of
the faults are pairwise and captured by subFilterBad. -/
def headPrevBad (c : Option Char) (l : List Char) : Bool :=
  match l with
  | [] => false
  | x :: _ => (x = '+' || x = '#') && prevNotSep c

/-- Bridge between the C scan of dimq_sub_topic_check and the claim-side
pair predicate. -/
theorem sub_topic_loop_false_iff (l : List Char) : ∀ c : Option Char,
    sub_topic_loop c l = false ↔ (headPrevBad c l = true ∨ subFilterBad l = true) := by
  induction l with
  | nil => intro c; simp [sub_topic_loop, headPrevBad, subFilterBad]
  | cons x rest ih =>
    intro c
    cases rest with
    | nil =>
      by_cases hp : x = '+' <;> by_cases hh : x = '#' <;>
        simp [sub_topic_loop, headPrevBad, subFilterBad, nextNotSep, hp, hh]
    | cons n r2 =>
      have hpair : subFilterBad (x :: n :: r2)
          = (subFilterBadPair (x, n) || subFilterBad (n :: r2)) := rfl
      have ihx := ih (some x)
      rw [hpair]
      by_cases hp : x = '+'
      · subst hp
        by_cases hcond : prevNotSep c = true ∨ nextNotSep (n :: r2) = true
        · have hfalse : sub_topic_loop c ('+' :: n :: r2) = false := by
            simp [sub_topic_loop, hcond]
          rcases hcond with hcond | hcond
          · simp [hfalse, headPrevBad, hcond]
          · have hn : ¬ n = '/' := by simpa [nextNotSep] using hcond
            simp [hfalse, subFilterBadPair, hn]
        · rw [not_or] at hcond
          have hn : n = '/' := by
            have := hcond.2
            simpa [nextNotSep] using this
          have hstep : sub_topic_loop c ('+' :: n :: r2) = sub_topic_loop (some '+') (n :: r2) := by
            simp [sub_topic_loop, hcond.1, hcond.2]
          rw [hstep, ihx]
          simp [headPrevBad, subFilterBadPair, hcond.1, hn]
      · by_cases hh : x = '#'
        · subst hh
          have hfalse : sub_topic_loop c ('#' :: n :: r2) = false := by
            simp [sub_topic_loop]
          simp [hfalse, subFilterBadPair]
        · have hstep : sub_topic_loop c (x :: n :: r2) = sub_topic_loop (some x) (n :: r2) := by
            simp [sub_topic_loop, hp, hh]
          rw [hstep, ihx]
          by_cases hx3 : x = '/'
          · simp [headPrevBad, subFilterBadPair, prevNotSep, hp, hh, hx3]
          · simp only [headPrevBad, subFilterBadPair, hp, hh, hx3, Bool.or_eq_true,
              Bool.and_eq_true, decide_eq_true_eq, Bool.not_eq_true']
            by_cases hn1 : n = '+' <;> by_cases hn2 : n = '#' <;>
              simp [prevNotSep, hn1, hn2, hx3, hp, hh]

/-- The publish check answers Invalid exactly for a wildcard byte or an
over-long string. -/
theorem pub_check_inval_iff (hier_limit : Nat) (l : List Char) :
    dimq_pub_topic_check hier_limit (some l) = dimq_ERR_INVAL ↔
      ('+' ∈ l ∨ '#' ∈ l ∨ 65535 < l.length ∨ hier_limit < l.count '/') := by
  by_cases h1 : pub_topic_loop l = false
  · have hw := (pub_topic_loop_false_iff l).mp h1
    simp [dimq_pub_topic_check, h1]
    tauto
  · have hw : ¬ ('+' ∈ l ∨ '#' ∈ l) := fun h => h1 ((pub_topic_loop_false_iff l).mpr h)
    by_cases h2 : 65535 < l.length
    · simp [dimq_pub_topic_check, h1, h2]
    · by_cases h3 : hier_limit < l.count '/'
      · simp [dimq_pub_topic_check, h1, h2, h3]
      · simp [dimq_pub_topic_check, h1, h2, h3, dimq_ERR_SUCCESS, dimq_ERR_INVAL]
        tauto

/-- The publish check is total: anything not Invalid is success. -/
theorem pub_check_success_iff (hier_limit : Nat) (l : List Char) :
    dimq_pub_topic_check hier_limit (some l) = dimq_ERR_SUCCESS ↔
      ¬ ('+' ∈ l ∨ '#' ∈ l ∨ 65535 < l.length ∨ hier_limit < l.count '/') := by
  by_cases h : dimq_pub_topic_check hier_limit (some l) = dimq_ERR_INVAL
  · rw [h]
    simp [dimq_ERR_SUCCESS, dimq_ERR_INVAL, (pub_check_inval_iff hier_limit l).mp h]
  · have hgood : dimq_pub_topic_check hier_limit (some l) = dimq_ERR_SUCCESS := by
      simp only [dimq_pub_topic_check] at h ⊢
      split_ifs at h ⊢
      · exact absurd rfl h
      · exact absurd rfl h
      · exact absurd rfl h
      · rfl
    have hnb : ¬ ('+' ∈ l ∨ '#' ∈ l ∨ 65535 < l.length ∨ hier_limit < l.count '/') :=
      fun hc => h ((pub_check_inval_iff hier_limit l).mpr hc)
    rw [hgood]
    simpa using hnb

/-- The subscription check answers Invalid exactly for an over-long string
or a misplaced wildcard in the sense of the pairwise fault predicate
subFilterBad. -/
theorem sub_check_inval_iff (hier_limit : Nat) (l : List Char) :
    dimq_sub_topic_check hier_limit (some l) = dimq_ERR_INVAL ↔
      (65535 < l.length ∨ subFilterBad l = true ∨ hier_limit < l.count '/') := by
  have hhead : headPrevBad none l = false := by
    cases l with
    | nil => rfl
    | cons x rest => simp [headPrevBad, prevNotSep]
  by_cases h1 : sub_topic_loop none l = false
  · have hw := (sub_topic_loop_false_iff l none).mp h1
    rw [hhead] at hw
    simp [dimq_sub_topic_check, h1]
    tauto
  · have hw : ¬ subFilterBad l = true := fun h =>
      h1 ((sub_topic_loop_false_iff l none).mpr (Or.inr h))
    by_cases h2 : 65535 < l.length
    · simp [dimq_sub_topic_check, h1, h2]
    · by_cases h3 : hier_limit < l.count '/'
      · simp [dimq_sub_topic_check, h1, h2, h3]
      · simp [dimq_sub_topic_check, h1, h2, h3, dimq_ERR_SUCCESS, dimq_ERR_INVAL]
        simpa using hw

/-- The subscription check is total: anything not Invalid is success. -/
theorem sub_check_success_iff (hier_limit : Nat) (l : List Char) :
    dimq_sub_topic_check hier_limit (some l) = dimq_ERR_SUCCESS ↔
      ¬ (65535 < l.length ∨ subFilterBad l = true ∨ hier_limit < l.count '/') := by
  by_cases h : dimq_sub_topic_check hier_limit (some l) = dimq_ERR_INVAL
  · rw [h]
    simp [dimq_ERR_SUCCESS, dimq_ERR_INVAL, (sub_check_inval_iff hier_limit l).mp h]
  · have hgood : dimq_sub_topic_check hier_limit (some l) = dimq_ERR_SUCCESS := by
      simp only [dimq_sub_topic_check] at h ⊢
      split_ifs at h ⊢
      · exact absurd rfl h
      · exact absurd rfl h
      · exact absurd rfl h
      · rfl
    have hnb : ¬ (65535 < l.length ∨ subFilterBad l = true ∨ hier_limit < l.count '/') :=
      fun hc => h ((sub_check_inval_iff hier_limit l).mpr hc)
    rw [hgood]
    simpa using hnb

set_option maxRecDepth 8000 in
/-- C7 counterexample to the original claim: a wildcard-free topic of 201
bytes (well under 65535) whose separator count exceeds a configured
hierarchy limit of 200 is rejected by both validators, although the
original statement promised success for it. -/
theorem topic_check_hierarchy_counterexample :
    dimq_pub_topic_check 200 (some (List.replicate 201 '/')) = dimq_ERR_INVAL
    ∧ dimq_sub_topic_check 200 (some (List.replicate 201 '/')) = dimq_ERR_INVAL
    ∧ '+' ∉ List.replicate 201 '/'
    ∧ '#' ∉ List.replicate 201 '/'
    ∧ subFilterBad (List.replicate 201 '/') = false
    ∧ (List.replicate 201 '/').length ≤ 65535 :=
  ⟨by decide, by decide, by decide, by decide, by decide, by decide⟩

/-- C7 (amended): in the broker build both validators also enforce the
configured hierarchy-depth limit. For every limit: the publish-topic check
returns Invalid exactly for a NULL string, a string containing a wildcard
byte, a string longer than 65535 bytes (65535 accepted, 65536 rejected),
or a string with more separators than the limit; the subscribe-filter
check returns Invalid exactly for a NULL string, an over-long string, a
misplaced wildcard ('+' with a non-separator neighbour on either side, or
'#' not last or preceded by a non-separator), or more separators than the
limit; both return success otherwise. -/
theorem topic_check_spec :
    ∀ hier_limit : Nat,
    dimq_pub_topic_check hier_limit none = dimq_ERR_INVAL
    ∧ dimq_sub_topic_check hier_limit none = dimq_ERR_INVAL
    ∧ (∀ l : List Char,
        (dimq_pub_topic_check hier_limit (some l) = dimq_ERR_INVAL ↔
          ('+' ∈ l ∨ '#' ∈ l ∨ 65535 < l.length ∨ hier_limit < l.count '/'))
        ∧ (dimq_pub_topic_check hier_limit (some l) = dimq_ERR_SUCCESS ↔
          ¬ ('+' ∈ l ∨ '#' ∈ l ∨ 65535 < l.length ∨ hier_limit < l.count '/'))
        ∧ (dimq_sub_topic_check hier_limit (some l) = dimq_ERR_INVAL ↔
          (65535 < l.length ∨ subFilterBad l = true ∨ hier_limit < l.count '/'))
        ∧ (dimq_sub_topic_check hier_limit (some l) = dimq_ERR_SUCCESS ↔
          ¬ (65535 < l.length ∨ subFilterBad l = true ∨ hier_limit < l.count '/')))
    ∧ dimq_pub_topic_check hier_limit (some (List.replicate 65535 'a')) = dimq_ERR_SUCCESS
    ∧ dimq_pub_topic_check hier_limit (some (List.replicate 65536 'a')) = dimq_ERR_INVAL := by
  intro hier_limit
  have hcount : ∀ n : Nat, (List.replicate n 'a').count '/' = 0 := by
    intro n
    rw [List.count_eq_zero]
    intro hmem
    exact absurd (List.eq_of_mem_replicate hmem) (by decide)
  refine ⟨rfl, rfl, ?_, ?_, ?_⟩
  · intro l
    exact ⟨pub_check_inval_iff hier_limit l, pub_check_success_iff hier_limit l,
      sub_check_inval_iff hier_limit l, sub_check_success_iff hier_limit l⟩
  · refine (pub_check_success_iff hier_limit (List.replicate 65535 'a')).mpr ?_
    rw [not_or, not_or, not_or]
    refine ⟨?_, ?_, ?_, ?_⟩
    · intro hmem
      exact absurd (List.eq_of_mem_replicate hmem) (by decide)
    · intro hmem
      exact absurd (List.eq_of_mem_replicate hmem) (by decide)
    · rw [List.length_replicate]
      omega
    · rw [hcount]
      omega
  · refine (pub_check_inval_iff hier_limit (List.replicate 65536 'a')).mpr ?_
    refine Or.inr (Or.inr (Or.inl ?_))
    rw [List.length_replicate]
    omega

/-- Concrete instance for topic_check_spec at limit 200: a one-letter
topic passes the publish check and a bare multi-level wildcard passes the
subscribe check. -/
theorem topic_check_spec_witness :
    dimq_pub_topic_check 200 (some ['a']) = dimq_ERR_SUCCESS
    ∧ dimq_sub_topic_check 200 (some ['#']) = dimq_ERR_SUCCESS :=
  ⟨((topic_check_spec 200).2.2.1 ['a']).2.1.mpr (by decide),
   ((topic_check_spec 200).2.2.1 ['#']).2.2.2.mpr (by decide)⟩

/-- When the inflight walk finds no matching mid, no entry carries it. -/
theorem delOutScan_none_no_match (mid : Nat) (es : MsgState) (qos : Nat) :
    ∀ l : List ClientMsg, delOutScan mid es qos l = none → ∀ x ∈ l, x.mid ≠ mid := by
  intro l
  induction l with
  | nil => intro _ x hx; cases hx
  | cons m rest ih =>
    intro hnone x hx
    by_cases hm : m.mid = mid
    · exfalso
      unfold delOutScan at hnone
      rw [if_pos hm] at hnone
      by_cases hbad : m.qos ≠ qos ∨ (qos = 2 ∧ m.state ≠ es) <;> simp [hbad] at hnone
    · unfold delOutScan at hnone
      rw [if_neg hm] at hnone
      rcases List.mem_cons.mp hx with hx1 | hx1
      · subst hx1; exact hm
      · rcases hscan : delOutScan mid es qos rest with _ | r
        · exact ih hscan x hx1
        · rw [hscan] at hnone
          cases r with
          | error u => simp at hnone
          | ok p => simp at hnone

/-- When the inflight walk removes an entry, that entry is in the list and
carries the searched mid. -/
theorem delOutScan_ok_mem (mid : Nat) (es : MsgState) (qos : Nat) :
    ∀ (l : List ClientMsg) (item : ClientMsg) (idx : Nat),
      delOutScan mid es qos l = some (Except.ok (item, idx)) →
      item ∈ l ∧ item.mid = mid := by
  intro l
  induction l with
  | nil => intro item idx h; cases h
  | cons m rest ih =>
    intro item idx h
    simp only [delOutScan] at h
    by_cases hm : m.mid = mid
    · rw [if_pos hm] at h
      by_cases hbad : m.qos ≠ qos ∨ (qos = 2 ∧ m.state ≠ es)
      · simp [hbad] at h
      · simp [hbad] at h
        constructor
        · rw [← h.1]
          exact List.mem_cons_self m rest
        · rw [← h.1]
          exact hm
    · rw [if_neg hm] at h
      rcases hscan : delOutScan mid es qos rest with _ | r
      · rw [hscan] at h; cases h
      · rw [hscan] at h
        cases r with
        | error u => simp at h
        | ok p =>
          simp at h
          have hmem := ih p.1 p.2 (by rw [hscan])
          rw [h.1] at hmem
          exact ⟨List.mem_cons_of_mem m hmem.1, hmem.2⟩

/-- When the first entry carrying the mid is found with the wrong qos, or
with qos 2 in an unexpected state, the walk reports the protocol error. -/
theorem delOutScan_first_error (mid : Nat) (es : MsgState) (qos : Nat) :
    ∀ (pre : List ClientMsg) (m : ClientMsg) (post : List ClientMsg),
      (∀ x ∈ pre, x.mid ≠ mid) → m.mid = mid →
      (m.qos ≠ qos ∨ (qos = 2 ∧ m.state ≠ es)) →
      delOutScan mid es qos (pre ++ m :: post) = some (Except.error ()) := by
  intro pre
  induction pre with
  | nil =>
    intro m post _ hm hbad
    rw [List.nil_append]
    simp only [delOutScan]
    rw [if_pos hm, if_pos hbad]
  | cons y rest ih =>
    intro m post hpre hm hbad
    have hy : ¬ y.mid = mid := hpre y (List.mem_cons_self y rest)
    have hrec := ih m post (fun x hx => hpre x (List.mem_cons_of_mem y hx)) hm hbad
    rw [List.cons_append]
    simp only [delOutScan]
    rw [if_neg hy, hrec]

/-- Replacing a node keeps the list length. -/
theorem replaceMsg_length (l : List ClientMsg) (m m1 : ClientMsg) :
    (replaceMsg l m m1).length = l.length := by
  induction l with
  | nil => rfl
  | cons x rest ih =>
    by_cases h : x = m <;> simp [replaceMsg, h, ih]

/-- Every node of the replaced list is an original node or the
replacement. -/
theorem replaceMsg_mem (l : List ClientMsg) (m m1 : ClientMsg) :
    ∀ x ∈ replaceMsg l m m1, x ∈ l ∨ x = m1 := by
  induction l with
  | nil => intro x hx; cases hx
  | cons y rest ih =>
    intro x hx
    by_cases h : y = m
    · rw [replaceMsg, if_pos h] at hx
      rcases List.mem_cons.mp hx with hx1 | hx1
      · exact Or.inr hx1
      · exact Or.inl (List.mem_cons_of_mem y hx1)
    · rw [replaceMsg, if_neg h] at hx
      rcases List.mem_cons.mp hx with hx1 | hx1
      · exact Or.inl (by rw [hx1]; exact List.mem_cons_self y rest)
      · rcases ih x hx1 with h2 | h2
        · exact Or.inl (List.mem_cons_of_mem y h2)
        · exact Or.inr h2

/-- Observable effects of removing one entry via db__message_remove: the
queued list is untouched, surviving inflight nodes are original nodes, and
the inflight list never grows. -/
theorem message_remove_effects (db : Db) (md : MsgData) (item : ClientMsg) :
    (db__message_remove db md item).2.queued = md.queued
    ∧ (∀ x ∈ (db__message_remove db md item).2.inflight, x ∈ md.inflight)
    ∧ (db__message_remove db md item).2.inflight.length ≤ md.inflight.length := by
  refine ⟨rfl, ?_, ?_⟩
  · intro x hx
    exact (md.inflight.erase_sublist item).subset hx
  · exact (md.inflight.erase_sublist item).length_le

/-- Replacing an absent node is the identity. -/
theorem replaceMsg_not_mem (l : List ClientMsg) (m m1 : ClientMsg) (h : m ∉ l) :
    replaceMsg l m m1 = l := by
  induction l with
  | nil => rfl
  | cons z rest ih =>
    have hz : ¬ z = m := fun hzz => h (by rw [hzz]; exact List.mem_cons_self _ _)
    rw [replaceMsg, if_neg hz, ih (fun hmm => h (List.mem_cons_of_mem z hmm))]

/-- Observable queue effects of db__message_write_inflight_out_single: the
queued list is untouched, every surviving inflight node carries the mid of
an original inflight node, and the inflight list never grows. -/
theorem write_single_effects (oracle : SendOracle) (db : Db) (context : Context)
    (msg : ClientMsg) :
    (db__message_write_inflight_out_single oracle db context msg).2.2.1.msgs_out.queued
      = context.msgs_out.queued
    ∧ (∀ x ∈ (db__message_write_inflight_out_single oracle db context
        msg).2.2.1.msgs_out.inflight,
        ∃ y ∈ context.msgs_out.inflight, x.mid = y.mid)
    ∧ (db__message_write_inflight_out_single oracle db context msg).2.2.1.msgs_out.inflight.length
        ≤ context.msgs_out.inflight.length := by
  have hrem : ∀ context1 : Context,
      context1.msgs_out.queued = context.msgs_out.queued →
      context1.msgs_out.inflight = context.msgs_out.inflight →
      ({ context1 with msgs_out := (db__message_remove db context1.msgs_out msg).2 }
          : Context).msgs_out.queued = context.msgs_out.queued
      ∧ (∀ x ∈ ({ context1 with msgs_out := (db__message_remove db context1.msgs_out msg).2 }
          : Context).msgs_out.inflight, ∃ y ∈ context.msgs_out.inflight, x.mid = y.mid)
      ∧ ({ context1 with msgs_out := (db__message_remove db context1.msgs_out msg).2 }
          : Context).msgs_out.inflight.length ≤ context.msgs_out.inflight.length := by
    intro context1 hq hi
    have h := message_remove_effects db context1.msgs_out msg
    refine ⟨by rw [h.1, hq], ?_, ?_⟩
    · intro x hx
      have := h.2.1 x hx
      rw [hi] at this
      exact ⟨x, this, rfl⟩
    · have := h.2.2
      rw [hi] at this
      exact this
  have hrep : ∀ m1 : ClientMsg, m1.mid = msg.mid →
      (∀ x ∈ replaceMsg context.msgs_out.inflight msg m1,
        ∃ y ∈ context.msgs_out.inflight, x.mid = y.mid)
      ∧ (replaceMsg context.msgs_out.inflight msg m1).length
          ≤ context.msgs_out.inflight.length := by
    intro m1 hmid
    constructor
    · intro x hx
      by_cases hmem : msg ∈ context.msgs_out.inflight
      · rcases replaceMsg_mem context.msgs_out.inflight msg m1 x hx with h | h
        · exact ⟨x, h, rfl⟩
        · exact ⟨msg, hmem, by rw [h, hmid]⟩
      · rw [replaceMsg_not_mem context.msgs_out.inflight msg m1 hmem] at hx
        exact ⟨x, hx, rfl⟩
    · rw [replaceMsg_length]
  have hrep2 : ∀ (ts : Nat) (dp : Bool) (st : MsgState),
      (∀ x ∈ replaceMsg context.msgs_out.inflight msg
          { msg with timestamp := ts, dup := dp, state := st },
        ∃ y ∈ context.msgs_out.inflight, x.mid = y.mid)
      ∧ (replaceMsg context.msgs_out.inflight msg
          { msg with timestamp := ts, dup := dp, state := st }).length
          ≤ context.msgs_out.inflight.length := fun _ _ _ => hrep _ rfl
  unfold db__message_write_inflight_out_single
  by_cases hexp : msg.store.message_expiry_time ≠ 0
      ∧ msg.store.message_expiry_time < db.now_real_s
  · rw [if_pos hexp]
    by_cases hdir : msg.direction = Dir.md_out ∧ 0 < msg.qos
    · rw [if_pos hdir]
      exact hrem (util__increment_send_quota context) rfl rfl
    · rw [if_neg hdir]
      exact hrem context rfl rfl
  · rw [if_neg hexp]
    rcases msg.state with _ | _ | _ | _ | _ | _ | _ | _ | _ | _ | _ | _ <;>
      simp only [] <;>
      first
        | exact hrem context rfl rfl
        | exact ⟨trivial, fun x hx => ⟨x, hx, rfl⟩, le_refl _⟩
        | exact ⟨rfl, fun x hx => ⟨x, hx, rfl⟩, le_refl _⟩
        | (split_ifs <;>
            first
              | exact hrem context rfl rfl
              | exact ⟨trivial, (hrep2 _ _ _).1, (hrep2 _ _ _).2⟩
              | exact ⟨rfl, (hrep2 _ _ _).1, (hrep2 _ _ _).2⟩
              | exact ⟨trivial, fun x hx => ⟨x, hx, rfl⟩, le_refl _⟩
              | exact ⟨rfl, fun x hx => ⟨x, hx, rfl⟩, le_refl _⟩)

/-- The iterated flush inherits the per-entry effects: outbound queued is
untouched, surviving inflight mids come from the input inflight list, and
the inflight list never grows. -/
theorem writeInflightGo_effects (oracle : SendOracle) :
    ∀ (snapshot : List ClientMsg) (db : Db) (context : Context) (acc : List Packet),
      (writeInflightGo oracle db context snapshot acc).2.2.1.msgs_out.queued
        = context.msgs_out.queued
      ∧ (∀ x ∈ (writeInflightGo oracle db context snapshot acc).2.2.1.msgs_out.inflight,
          ∃ y ∈ context.msgs_out.inflight, x.mid = y.mid)
      ∧ (writeInflightGo oracle db context snapshot acc).2.2.1.msgs_out.inflight.length
          ≤ context.msgs_out.inflight.length := by
  intro snapshot
  induction snapshot with
  | nil =>
    intro db context acc
    exact ⟨rfl, fun x hx => ⟨x, hx, rfl⟩, le_refl _⟩
  | cons m rest ih =>
    intro db context acc
    have hsingle := write_single_effects oracle db context m
    rcases hr : db__message_write_inflight_out_single oracle db context m with ⟨rc, db1, context1, pkts⟩
    rw [hr] at hsingle
    simp only [writeInflightGo, hr]
    by_cases hrc : rc ≠ dimq_ERR_SUCCESS
    · rw [if_pos hrc]
      exact hsingle
    · rw [if_neg hrc]
      have hrest := ih db1 context1 (acc ++ pkts)
      refine ⟨by rw [hrest.1, hsingle.1], ?_, le_trans hrest.2.2 hsingle.2.2⟩
      intro x hx
      rcases hrest.2.1 x hx with ⟨y, hy, hxy⟩
      rcases hsingle.2.1 y hy with ⟨z, hz, hyz⟩
      exact ⟨z, hz, by rw [hxy, hyz]⟩

/-- db__message_write_inflight_out_latest inherits the flush effects. -/
theorem write_latest_effects (oracle : SendOracle) (db : Db) (context : Context) :
    (db__message_write_inflight_out_latest oracle db context).2.2.1.msgs_out.queued
      = context.msgs_out.queued
    ∧ (∀ x ∈ (db__message_write_inflight_out_latest oracle db context).2.2.1.msgs_out.inflight,
        ∃ y ∈ context.msgs_out.inflight, x.mid = y.mid)
    ∧ (db__message_write_inflight_out_latest oracle db context).2.2.1.msgs_out.inflight.length
        ≤ context.msgs_out.inflight.length := by
  unfold db__message_write_inflight_out_latest
  by_cases h1 : context.state ≠ ClientState.cs_active ∨ context.sock_valid = false
      ∨ context.msgs_out.inflight = []
  · rw [if_pos h1]
    exact ⟨rfl, fun x hx => ⟨x, hx, rfl⟩, le_refl _⟩
  · rw [if_neg h1]
    dsimp only
    split_ifs with h2 h3 <;> exact writeInflightGo_effects oracle _ db context []

/-- Every node left by the promotion walk of db__message_delete_outgoing,
inflight or queued, carries a mid from the input lists: promotion only
moves nodes and rewrites their state and timestamp. -/
theorem delOutPromote_mids (db : Db) (P : Nat → Prop) :
    ∀ (q : List ClientMsg) (md : MsgData) (idx : Nat),
      md.queued = q →
      (∀ x ∈ md.inflight, P x.mid) → (∀ x ∈ q, P x.mid) →
      (∀ x ∈ (delOutPromote db q md idx).inflight, P x.mid)
      ∧ (∀ x ∈ (delOutPromote db q md idx).queued, P x.mid) := by
  intro q
  induction q with
  | nil =>
    intro md idx hinv hin hq
    refine ⟨hin, ?_⟩
    rw [delOutPromote, hinv]
    intro x hx
    cases hx
  | cons m rest ih =>
    intro md idx hinv hin hq
    rw [delOutPromote]
    by_cases hbreak : md.inflight_maximum ≠ 0 ∧ md.inflight_maximum ≤ idx
    · rw [if_pos hbreak]
      exact ⟨hin, by rw [hinv]; exact hq⟩
    · rw [if_neg hbreak]
      simp only [db__message_dequeue_first]
      refine ih _ (idx + 1) rfl ?_ (fun x hx => hq x (List.mem_cons_of_mem m hx))
      intro x hx
      rcases List.mem_append.mp hx with hx1 | hx1
      · exact hin x hx1
      · have : x = { m with timestamp := db.now_s, state := stateForQos m.qos m.state } := by
          simpa using hx1
        rw [this]
        exact hq m (List.mem_cons_self m rest)

/-- The promotion walk of db__message_delete_outgoing adds at most
(inflight_maximum - idx) nodes to inflight when the maximum is non-zero. -/
theorem delOutPromote_length (db : Db) :
    ∀ (q : List ClientMsg) (md : MsgData) (idx : Nat),
      md.inflight_maximum ≠ 0 →
      (delOutPromote db q md idx).inflight.length
        ≤ md.inflight.length + (md.inflight_maximum - idx) := by
  intro q
  induction q with
  | nil =>
    intro md idx hmax
    rw [delOutPromote]
    omega
  | cons m rest ih =>
    intro md idx hmax
    rw [delOutPromote]
    by_cases hbreak : md.inflight_maximum ≠ 0 ∧ md.inflight_maximum ≤ idx
    · rw [if_pos hbreak]
      omega
    · rw [if_neg hbreak]
      simp only [db__message_dequeue_first]
      have hidx : idx < md.inflight_maximum := by
        rcases not_and_or.mp hbreak with h | h
        · exact absurd hmax (by simpa using h)
        · omega
      have := ih (db__message_dequeue_first
        { md with queued := { m with
            timestamp := db.now_s
            state := stateForQos m.qos m.state } :: rest }) (idx + 1) (by simpa using hmax)
      simp only [db__message_dequeue_first] at this
      simp only [List.length_append, List.length_cons, List.length_nil] at this ⊢
      omega

/-- An outbound bookkeeping state with a full window of two inflight QoS 1
messages (mids 1 and 2, awaiting PUBACK) and three queued QoS 1 messages
(mids 3, 4, 5), under inflight_maximum 2. -/
def fullWindowMd : MsgData :=
  { inflight := [sampleMsg 1 1 MsgState.ms_wait_for_puback,
      sampleMsg 2 1 MsgState.ms_wait_for_puback]
    queued := [sampleMsg 3 1 MsgState.ms_queued, sampleMsg 4 1 MsgState.ms_queued,
      sampleMsg 5 1 MsgState.ms_queued]
    msg_count := 5
    msg_count12 := 5
    msg_bytes := 10
    msg_bytes12 := 10
    inflight_maximum := 2
    inflight_quota := 0 }

/-- The session owning fullWindowMd. -/
def fullWindowCtx : Context :=
  { sampleCtx with msgs_out := fullWindowMd }

/-- C2 counterexample: acknowledging mid 1 (the oldest of two inflight
messages, window full at inflight_maximum two) succeeds, yet the promotion
loop, whose index only counted the entries before the acked one, promotes
two queued messages, leaving three messages inflight, more than
inflight_maximum. -/
theorem delete_outgoing_overshoot_counterexample :
    (db__message_delete_outgoing sampleOracle sampleDb (some fullWindowCtx) 1
        MsgState.ms_wait_for_puback 1).1 = dimq_ERR_SUCCESS
    ∧ fullWindowCtx.msgs_out.inflight_maximum = 2
    ∧ Option.map (fun c : Context => c.msgs_out.inflight.length)
        (db__message_delete_outgoing sampleOracle sampleDb (some fullWindowCtx) 1
          MsgState.ms_wait_for_puback 1).2.2.1 = some 3 := by
  refine ⟨?_, rfl, ?_⟩ <;> decide

/-- In a list of messages with pairwise distinct mids, nothing left after
erasing the entry that carries a given mid still carries it. -/
theorem nodup_mids_erase (l : List ClientMsg) (item : ClientMsg) (mid : Nat)
    (hnodup : (l.map (fun x => x.mid)).Nodup) (hitem : item ∈ l) (hmid : item.mid = mid) :
    ∀ x ∈ l.erase item, x.mid ≠ mid := by
  rcases List.exists_erase_eq hitem with ⟨s, t, _hnots, hsplit, herase⟩
  rw [herase]
  rw [hsplit, List.map_append, List.map_cons] at hnodup
  have hmiddle := (List.nodup_middle).mp hnodup
  have hnotmem : item.mid ∉ s.map (fun y => y.mid) ++ t.map (fun y => y.mid) :=
    (List.nodup_cons.mp hmiddle).1
  intro x hx hxm
  apply hnotmem
  rw [hmid, ← hxm]
  rcases List.mem_append.mp hx with h | h
  · exact List.mem_append.mpr (Or.inl (List.mem_map_of_mem _ h))
  · exact List.mem_append.mpr (Or.inr (List.mem_map_of_mem _ h))

/-- Branch equation of db__message_delete_outgoing when no inflight entry
matches the mid. -/
theorem delete_outgoing_eq_of_none (oracle : SendOracle) (db : Db) (context : Context)
    (mid : Nat) (expect_state : MsgState) (qos : Nat)
    (h : delOutScan mid expect_state qos context.msgs_out.inflight = none) :
    db__message_delete_outgoing oracle db (some context) mid expect_state qos
      = ((db__message_write_inflight_out_latest oracle db { context with
            msgs_out := delOutPromote db context.msgs_out.queued context.msgs_out
              context.msgs_out.inflight.length }).1,
         (db__message_write_inflight_out_latest oracle db { context with
            msgs_out := delOutPromote db context.msgs_out.queued context.msgs_out
              context.msgs_out.inflight.length }).2.1,
         some (db__message_write_inflight_out_latest oracle db { context with
            msgs_out := delOutPromote db context.msgs_out.queued context.msgs_out
              context.msgs_out.inflight.length }).2.2.1,
         (db__message_write_inflight_out_latest oracle db { context with
            msgs_out := delOutPromote db context.msgs_out.queued context.msgs_out
              context.msgs_out.inflight.length }).2.2.2) := by
  simp only [db__message_delete_outgoing, h]

/-- Branch equation of db__message_delete_outgoing when the matching entry
fails the qos or state check. -/
theorem delete_outgoing_eq_of_error (oracle : SendOracle) (db : Db) (context : Context)
    (mid : Nat) (expect_state : MsgState) (qos : Nat)
    (h : delOutScan mid expect_state qos context.msgs_out.inflight = some (Except.error ())) :
    db__message_delete_outgoing oracle db (some context) mid expect_state qos
      = (dimq_ERR_PROTOCOL, db, some context, []) := by
  simp only [db__message_delete_outgoing, h]

/-- Branch equation of db__message_delete_outgoing when the matching entry
is removed. -/
theorem delete_outgoing_eq_of_ok (oracle : SendOracle) (db : Db) (context : Context)
    (mid : Nat) (expect_state : MsgState) (qos : Nat) (item : ClientMsg) (idx : Nat)
    (h : delOutScan mid expect_state qos context.msgs_out.inflight
      = some (Except.ok (item, idx))) :
    db__message_delete_outgoing oracle db (some context) mid expect_state qos
      = ((db__message_write_inflight_out_latest oracle
            (db__message_remove db context.msgs_out item).1 { context with
            msgs_out := delOutPromote (db__message_remove db context.msgs_out item).1
              (db__message_remove db context.msgs_out item).2.queued
              (db__message_remove db context.msgs_out item).2 idx }).1,
         (db__message_write_inflight_out_latest oracle
            (db__message_remove db context.msgs_out item).1 { context with
            msgs_out := delOutPromote (db__message_remove db context.msgs_out item).1
              (db__message_remove db context.msgs_out item).2.queued
              (db__message_remove db context.msgs_out item).2 idx }).2.1,
         some (db__message_write_inflight_out_latest oracle
            (db__message_remove db context.msgs_out item).1 { context with
            msgs_out := delOutPromote (db__message_remove db context.msgs_out item).1
              (db__message_remove db context.msgs_out item).2.queued
              (db__message_remove db context.msgs_out item).2 idx }).2.2.1,
         (db__message_write_inflight_out_latest oracle
            (db__message_remove db context.msgs_out item).1 { context with
            msgs_out := delOutPromote (db__message_remove db context.msgs_out item).1
              (db__message_remove db context.msgs_out item).2.queued
              (db__message_remove db context.msgs_out item).2 idx }).2.2.2) := by
  simp only [db__message_delete_outgoing, h]

/-- C2 (amended): when the first outbound inflight entry carrying the acked
mid has the wrong qos, or qos 2 with an unexpected state, delete-outgoing
fails with Protocol leaving everything untouched; when the call succeeds
and the outbound packet identifiers are unique (mids pairwise distinct
inflight and the acked mid absent from queued), no entry with that mid
remains in either outbound list. The inflight bound is weaker than
claimed: the promotion index only counts the entries walked before the
acked one, so the inflight length is only bounded by its previous value
plus inflight_maximum and can exceed inflight_maximum itself. -/
theorem message_delete_outgoing_spec (oracle : SendOracle) (db : Db) (context : Context)
    (mid : Nat) (expect_state : MsgState) (qos : Nat) :
    (∀ (pre : List ClientMsg) (m : ClientMsg) (post : List ClientMsg),
      context.msgs_out.inflight = pre ++ m :: post →
      (∀ x ∈ pre, x.mid ≠ mid) → m.mid = mid →
      (m.qos ≠ qos ∨ (qos = 2 ∧ m.state ≠ expect_state)) →
      db__message_delete_outgoing oracle db (some context) mid expect_state qos
        = (dimq_ERR_PROTOCOL, db, some context, []))
    ∧ ((db__message_delete_outgoing oracle db (some context) mid expect_state qos).1
          = dimq_ERR_SUCCESS →
       (context.msgs_out.inflight.map (fun x => x.mid)).Nodup →
       (∀ x ∈ context.msgs_out.queued, x.mid ≠ mid) →
       ∀ c1 : Context,
         (db__message_delete_outgoing oracle db (some context) mid expect_state qos).2.2.1
           = some c1 →
         (∀ x ∈ c1.msgs_out.inflight, x.mid ≠ mid)
         ∧ (∀ x ∈ c1.msgs_out.queued, x.mid ≠ mid))
    ∧ (context.msgs_out.inflight_maximum ≠ 0 →
       ∀ c1 : Context,
         (db__message_delete_outgoing oracle db (some context) mid expect_state qos).2.2.1
           = some c1 →
         c1.msgs_out.inflight.length
           ≤ context.msgs_out.inflight.length + context.msgs_out.inflight_maximum) := by
  refine ⟨?_, ?_, ?_⟩
  · intro pre m post hsplit hpre hm hbad
    exact delete_outgoing_eq_of_error oracle db context mid expect_state qos
      (by rw [hsplit]; exact delOutScan_first_error mid expect_state qos pre m post hpre hm hbad)
  · intro hrc hnodup hqfree c1 hc1
    rcases hscan : delOutScan mid expect_state qos context.msgs_out.inflight with _ | r
    · rw [delete_outgoing_eq_of_none oracle db context mid expect_state qos hscan] at hc1
      have hifree : ∀ x ∈ context.msgs_out.inflight, x.mid ≠ mid :=
        delOutScan_none_no_match mid expect_state qos context.msgs_out.inflight hscan
      have hpromote := delOutPromote_mids db (fun n => n ≠ mid)
        context.msgs_out.queued context.msgs_out context.msgs_out.inflight.length rfl
        hifree hqfree
      have hwrite := write_latest_effects oracle db
        ({ context with msgs_out := (delOutPromote db context.msgs_out.queued context.msgs_out context.msgs_out.inflight.length) })
      have hc1eq := (Option.some.injEq _ _).mp hc1.symm
      rw [← hc1eq] at hwrite
      constructor
      · intro x hx
        rcases hwrite.2.1 x hx with ⟨y, hy, hxy⟩
        rw [hxy]
        exact hpromote.1 y hy
      · intro x hx
        rw [hwrite.1] at hx
        exact hpromote.2 x hx
    · cases r with
      | error u =>
        rw [delete_outgoing_eq_of_error oracle db context mid expect_state qos
          (by rw [hscan])] at hrc
        simp [dimq_ERR_PROTOCOL, dimq_ERR_SUCCESS] at hrc
      | ok p =>
        rw [delete_outgoing_eq_of_ok oracle db context mid expect_state qos p.1 p.2
          (by rw [hscan])] at hc1
        rcases delOutScan_ok_mem mid expect_state qos context.msgs_out.inflight p.1 p.2
          (by rw [hscan]) with ⟨hitem, hitemmid⟩
        have hifree : ∀ x ∈ (db__message_remove db context.msgs_out p.1).2.inflight,
            x.mid ≠ mid := by
          have : (db__message_remove db context.msgs_out p.1).2.inflight
              = context.msgs_out.inflight.erase p.1 := rfl
          rw [this]
          exact nodup_mids_erase context.msgs_out.inflight p.1 mid hnodup hitem hitemmid
        have hqueued_eq : (db__message_remove db context.msgs_out p.1).2.queued
            = context.msgs_out.queued := rfl
        have hpromote := delOutPromote_mids (db__message_remove db context.msgs_out p.1).1
          (fun n => n ≠ mid)
          (db__message_remove db context.msgs_out p.1).2.queued
          (db__message_remove db context.msgs_out p.1).2 p.2 rfl hifree
          (by rw [hqueued_eq]; exact hqfree)
        have hwrite := write_latest_effects oracle
          (db__message_remove db context.msgs_out p.1).1
          ({ context with msgs_out := (delOutPromote (db__message_remove db context.msgs_out p.1).1 (db__message_remove db context.msgs_out p.1).2.queued (db__message_remove db context.msgs_out p.1).2 p.2) })
        have hc1eq := (Option.some.injEq _ _).mp hc1.symm
        rw [← hc1eq] at hwrite
        constructor
        · intro x hx
          rcases hwrite.2.1 x hx with ⟨y, hy, hxy⟩
          rw [hxy]
          exact hpromote.1 y hy
        · intro x hx
          rw [hwrite.1] at hx
          exact hpromote.2 x hx
  · intro hmax c1 hc1
    rcases hscan : delOutScan mid expect_state qos context.msgs_out.inflight with _ | r
    · rw [delete_outgoing_eq_of_none oracle db context mid expect_state qos hscan] at hc1
      have hpromote := delOutPromote_length db context.msgs_out.queued context.msgs_out
        context.msgs_out.inflight.length hmax
      have hwrite := write_latest_effects oracle db
        ({ context with msgs_out := (delOutPromote db context.msgs_out.queued context.msgs_out context.msgs_out.inflight.length) })
      have hc1eq := (Option.some.injEq _ _).mp hc1.symm
      rw [← hc1eq] at hwrite
      have hthis := hwrite.2.2
      have hlink : (({ context with msgs_out := (delOutPromote db context.msgs_out.queued context.msgs_out context.msgs_out.inflight.length) }) : Context).msgs_out.inflight.length = (delOutPromote db context.msgs_out.queued context.msgs_out context.msgs_out.inflight.length).inflight.length := rfl
      omega
    · cases r with
      | error u =>
        rw [delete_outgoing_eq_of_error oracle db context mid expect_state qos
          (by rw [hscan])] at hc1
        have hc1eq : context = c1 := (Option.some.injEq _ _).mp hc1
        rw [← hc1eq]
        exact Nat.le_add_right _ _
      | ok p =>
        rw [delete_outgoing_eq_of_ok oracle db context mid expect_state qos p.1 p.2
          (by rw [hscan])] at hc1
        have herase : (db__message_remove db context.msgs_out p.1).2.inflight.length
            ≤ context.msgs_out.inflight.length :=
          (message_remove_effects db context.msgs_out p.1).2.2
        have hmx : (db__message_remove db context.msgs_out p.1).2.inflight_maximum
            = context.msgs_out.inflight_maximum := rfl
        have hpromote := delOutPromote_length (db__message_remove db context.msgs_out p.1).1
          (db__message_remove db context.msgs_out p.1).2.queued
          (db__message_remove db context.msgs_out p.1).2 p.2
          (by rw [hmx]; exact hmax)
        have hwrite := write_latest_effects oracle
          (db__message_remove db context.msgs_out p.1).1
          ({ context with msgs_out := (delOutPromote (db__message_remove db context.msgs_out p.1).1 (db__message_remove db context.msgs_out p.1).2.queued (db__message_remove db context.msgs_out p.1).2 p.2) })
        have hc1eq := (Option.some.injEq _ _).mp hc1.symm
        rw [← hc1eq] at hwrite
        have hw := hwrite.2.2
        rw [hmx] at hpromote
        have hlink : (({ context with msgs_out := (delOutPromote (db__message_remove db context.msgs_out p.1).1 (db__message_remove db context.msgs_out p.1).2.queued (db__message_remove db context.msgs_out p.1).2 p.2) }) : Context).msgs_out.inflight.length = (delOutPromote (db__message_remove db context.msgs_out p.1).1 (db__message_remove db context.msgs_out p.1).2.queued (db__message_remove db context.msgs_out p.1).2 p.2).inflight.length := rfl
        omega

/-- A session holding one outbound QoS 2 inflight message with mid 1
awaiting PUBREC. -/
def protoCtx : Context :=
  { sampleCtx with msgs_out := { emptyMd with
      inflight := [sampleMsg 1 2 MsgState.ms_wait_for_pubrec]
      msg_count := 1
      msg_count12 := 1
      msg_bytes := 2
      msg_bytes12 := 2 } }

/-- The session state after acknowledging mid 1 on the full window. -/
def afterDeleteCtx : Context :=
  ((db__message_delete_outgoing sampleOracle sampleDb (some fullWindowCtx) 1
    MsgState.ms_wait_for_puback 1).2.2.1).getD sampleCtx

/-- Concrete instance for message_delete_outgoing_spec: a PUBACK carrying
the wrong qos for an inflight QoS 2 message fails with Protocol; after the
successful ack on the full window no entry with mid 1 remains and the
inflight length respects the amended bound. -/
theorem message_delete_outgoing_spec_witness :
    db__message_delete_outgoing sampleOracle sampleDb (some protoCtx) 1
        MsgState.ms_wait_for_pubrec 1
      = (dimq_ERR_PROTOCOL, sampleDb, some protoCtx, [])
    ∧ afterDeleteCtx.msgs_out.inflight.countP (fun x => decide (x.mid = 1)) = 0
    ∧ afterDeleteCtx.msgs_out.inflight.length
        ≤ fullWindowCtx.msgs_out.inflight.length + fullWindowCtx.msgs_out.inflight_maximum := by
  refine ⟨?_, ?_, ?_⟩
  · exact (message_delete_outgoing_spec sampleOracle sampleDb protoCtx 1
      MsgState.ms_wait_for_pubrec 1).1 [] (sampleMsg 1 2 MsgState.ms_wait_for_pubrec) [] rfl
      (fun x hx => absurd hx (List.not_mem_nil x)) rfl (Or.inl (by decide))
  · have h := (message_delete_outgoing_spec sampleOracle sampleDb fullWindowCtx 1
      MsgState.ms_wait_for_puback 1).2.1 (by decide) (by decide) (by decide)
      afterDeleteCtx (by decide)
    rw [List.countP_eq_zero]
    intro a ha
    simpa using h.1 a ha
  · exact (message_delete_outgoing_spec sampleOracle sampleDb fullWindowCtx 1
      MsgState.ms_wait_for_puback 1).2.2 (by decide) afterDeleteCtx (by decide)

/-- Total payload bytes referenced by a message list. -/
def listBytes (l : List ClientMsg) : Int :=
  (l.map (fun m => (m.store.payloadlen : Int))).sum

/-- Number of messages with qos at least one in a list. -/
def count12 (l : List ClientMsg) : Int :=
  ((l.filter (fun m => decide (0 < m.qos))).length : Int)

/-- Total payload bytes of the qos-at-least-one messages in a list. -/
def bytes12 (l : List ClientMsg) : Int :=
  ((l.filter (fun m => decide (0 < m.qos))).map (fun m => (m.store.payloadlen : Int))).sum

/-- The counters-reflect-the-lists invariant of a MessageData (spec
sections 3 and 8). -/
def countersOk (md : MsgData) : Prop :=
  md.msg_count = ((md.inflight.length + md.queued.length : Nat) : Int)
  ∧ md.msg_bytes = listBytes md.inflight + listBytes md.queued
  ∧ md.msg_count12 = count12 md.inflight + count12 md.queued
  ∧ md.msg_bytes12 = bytes12 md.inflight + bytes12 md.queued

/-- Forget the state of a message: the part promotion may rewrite. -/
def eraseState (m : ClientMsg) : ClientMsg :=
  { m with state := MsgState.ms_invalid }

/-- The accounting functions only look at store and qos, so any rewriting
that preserves those fields preserves them. -/
theorem accounting_map_invariant (f : ClientMsg → ClientMsg)
    (hf : ∀ m, (f m).store = m.store ∧ (f m).qos = m.qos) (l : List ClientMsg) :
    listBytes (l.map f) = listBytes l
    ∧ count12 (l.map f) = count12 l
    ∧ bytes12 (l.map f) = bytes12 l := by
  induction l with
  | nil => exact ⟨rfl, rfl, rfl⟩
  | cons m rest ih =>
    refine ⟨?_, ?_, ?_⟩
    · simp only [List.map_cons, listBytes, List.sum_cons, (hf m).1]
      have := ih.1
      simp only [listBytes] at this
      rw [this]
    · simp only [List.map_cons, count12, List.filter_cons, (hf m).2]
      have := ih.2.1
      simp only [count12] at this
      by_cases hq : 0 < m.qos <;> simp [hq, this] <;> omega
    · simp only [List.map_cons, bytes12, List.filter_cons, (hf m).2]
      have := ih.2.2
      simp only [bytes12] at this
      by_cases hq : 0 < m.qos <;> simp [hq, (hf m).1, this]

/-- eraseState preserves store and qos. -/
theorem eraseState_invariant : ∀ m : ClientMsg,
    ((eraseState m).store = m.store ∧ (eraseState m).qos = m.qos) :=
  fun _ => ⟨rfl, rfl⟩

/-- remapOutState preserves store and qos. -/
theorem remapOutState_invariant : ∀ m : ClientMsg,
    ((remapOutState m).store = m.store ∧ (remapOutState m).qos = m.qos) := by
  intro m
  unfold remapOutState
  split_ifs <;> exact ⟨rfl, rfl⟩

/-- C8 helper: a message in wait_for_pubcomp never regresses to
publish_qos2 on reconnect; it becomes resend_pubrel. -/
theorem remapOutState_pubcomp (m : ClientMsg) (hq : m.qos = 2)
    (hs : m.state = MsgState.ms_wait_for_pubcomp) :
    (remapOutState m).state = MsgState.ms_resend_pubrel := by
  unfold remapOutState
  rw [hq]
  simp [hs]

/-- Setting the element right after a prefix rewrites the head of the
suffix. -/
theorem set_append_length (s : List ClientMsg) (b x : ClientMsg) (t : List ClientMsg) :
    (s ++ b :: t).set s.length x = s ++ x :: t := by
  induction s with
  | nil => rfl
  | cons a s1 ih => simp [List.set, ih]

/-- The inflight walk of the outbound reconnect reset: it installs the
state-remapped inflight list, leaves queued alone, adds the accounting of
the walked entries to the counters, and keeps inflight_maximum. -/
theorem resetOutInflight_spec :
    ∀ (pending : List ClientMsg) (context : Context) (acc : List ClientMsg),
      (resetOutInflight context acc pending).msgs_out.inflight
        = acc ++ pending.map remapOutState
      ∧ (resetOutInflight context acc pending).msgs_out.queued = context.msgs_out.queued
      ∧ (resetOutInflight context acc pending).msgs_out.msg_count
        = context.msgs_out.msg_count + pending.length
      ∧ (resetOutInflight context acc pending).msgs_out.msg_bytes
        = context.msgs_out.msg_bytes + listBytes pending
      ∧ (resetOutInflight context acc pending).msgs_out.msg_count12
        = context.msgs_out.msg_count12 + count12 pending
      ∧ (resetOutInflight context acc pending).msgs_out.msg_bytes12
        = context.msgs_out.msg_bytes12 + bytes12 pending
      ∧ (resetOutInflight context acc pending).msgs_out.inflight_maximum
        = context.msgs_out.inflight_maximum := by
  intro pending
  induction pending with
  | nil =>
    intro context acc
    refine ⟨by simp [resetOutInflight], rfl, ?_, ?_, ?_, ?_, rfl⟩ <;>
      simp [resetOutInflight, listBytes, count12, bytes12]
  | cons m rest ih =>
    intro context acc
    simp only [resetOutInflight]
    by_cases hq : 0 < m.qos
    · rw [if_pos hq]
      have := ih (util__decrement_send_quota
        { context with msgs_out := reconnectCountMsg context.msgs_out m }) (acc ++ [remapOutState m])
      have hmo : (util__decrement_send_quota
          { context with msgs_out := reconnectCountMsg context.msgs_out m }).msgs_out.queued
          = context.msgs_out.queued := by
        unfold util__decrement_send_quota
        split_ifs <;> rfl
      have hc : (util__decrement_send_quota
          { context with msgs_out := reconnectCountMsg context.msgs_out m }).msgs_out.msg_count
          = context.msgs_out.msg_count + 1 := by
        unfold util__decrement_send_quota
        split_ifs <;> simp [reconnectCountMsg]
      have hb : (util__decrement_send_quota
          { context with msgs_out := reconnectCountMsg context.msgs_out m }).msgs_out.msg_bytes
          = context.msgs_out.msg_bytes + (m.store.payloadlen : Int) := by
        unfold util__decrement_send_quota
        split_ifs <;> simp [reconnectCountMsg]
      have hc12 : (util__decrement_send_quota
          { context with msgs_out := reconnectCountMsg context.msgs_out m }).msgs_out.msg_count12
          = context.msgs_out.msg_count12 + 1 := by
        unfold util__decrement_send_quota
        split_ifs <;> simp [reconnectCountMsg, hq]
      have hb12 : (util__decrement_send_quota
          { context with msgs_out := reconnectCountMsg context.msgs_out m }).msgs_out.msg_bytes12
          = context.msgs_out.msg_bytes12 + (m.store.payloadlen : Int) := by
        unfold util__decrement_send_quota
        split_ifs <;> simp [reconnectCountMsg, hq]
      have hmx : (util__decrement_send_quota
          { context with msgs_out := reconnectCountMsg context.msgs_out m
            }).msgs_out.inflight_maximum
          = context.msgs_out.inflight_maximum := by
        unfold util__decrement_send_quota
        split_ifs <;> rfl
      refine ⟨by rw [this.1]; simp, by rw [this.2.1, hmo], ?_, ?_, ?_, ?_, ?_⟩
      · rw [this.2.2.1, hc]
        simp
        omega
      · rw [this.2.2.2.1, hb]
        simp [listBytes]
        omega
      · rw [this.2.2.2.2.1, hc12]
        simp [count12, List.filter_cons, hq]
        omega
      · rw [this.2.2.2.2.2.1, hb12]
        simp [bytes12, List.filter_cons, hq]
        omega
      · rw [this.2.2.2.2.2.2, hmx]
    · rw [if_neg hq]
      have := ih { context with msgs_out := reconnectCountMsg context.msgs_out m }
        (acc ++ [remapOutState m])
      refine ⟨by rw [this.1]; simp, by rw [this.2.1]; rfl, ?_, ?_, ?_, ?_, ?_⟩
      · rw [this.2.2.1]
        simp [reconnectCountMsg]
        omega
      · rw [this.2.2.2.1]
        simp [reconnectCountMsg, listBytes]
        omega
      · rw [this.2.2.2.2.1]
        simp [reconnectCountMsg, count12, List.filter_cons, hq]
      · rw [this.2.2.2.2.2.1]
        simp [reconnectCountMsg, bytes12, List.filter_cons, hq]
      · rw [this.2.2.2.2.2.2]
        rfl

/-- Counter effects of the queued walk of the outbound reconnect reset:
every visited entry is accounted once, whether promoted or not, and
inflight_maximum survives. -/
theorem resetOutQueued_counters (db : Db) :
    ∀ (pending : List ClientMsg) (context : Context),
      (resetOutQueued db context pending).msgs_out.msg_count
        = context.msgs_out.msg_count + pending.length
      ∧ (resetOutQueued db context pending).msgs_out.msg_bytes
        = context.msgs_out.msg_bytes + listBytes pending
      ∧ (resetOutQueued db context pending).msgs_out.msg_count12
        = context.msgs_out.msg_count12 + count12 pending
      ∧ (resetOutQueued db context pending).msgs_out.msg_bytes12
        = context.msgs_out.msg_bytes12 + bytes12 pending
      ∧ (resetOutQueued db context pending).msgs_out.inflight_maximum
        = context.msgs_out.inflight_maximum := by
  intro pending
  induction pending with
  | nil =>
    intro context
    refine ⟨?_, ?_, ?_, ?_, rfl⟩ <;> simp [resetOutQueued, listBytes, count12, bytes12]
  | cons m rest ih =>
    intro context
    simp only [resetOutQueued]
    have hstep : ∀ context2 : Context,
        context2.msgs_out.msg_count
            = context.msgs_out.msg_count + 1 →
        context2.msgs_out.msg_bytes
            = context.msgs_out.msg_bytes + (m.store.payloadlen : Int) →
        context2.msgs_out.msg_count12
            = context.msgs_out.msg_count12 + (if 0 < m.qos then 1 else 0) →
        context2.msgs_out.msg_bytes12
            = context.msgs_out.msg_bytes12
              + (if 0 < m.qos then (m.store.payloadlen : Int) else 0) →
        context2.msgs_out.inflight_maximum = context.msgs_out.inflight_maximum →
        (resetOutQueued db context2 rest).msgs_out.msg_count
            = context.msgs_out.msg_count + (m :: rest).length
        ∧ (resetOutQueued db context2 rest).msgs_out.msg_bytes
            = context.msgs_out.msg_bytes + listBytes (m :: rest)
        ∧ (resetOutQueued db context2 rest).msgs_out.msg_count12
            = context.msgs_out.msg_count12 + count12 (m :: rest)
        ∧ (resetOutQueued db context2 rest).msgs_out.msg_bytes12
            = context.msgs_out.msg_bytes12 + bytes12 (m :: rest)
        ∧ (resetOutQueued db context2 rest).msgs_out.inflight_maximum
            = context.msgs_out.inflight_maximum := by
      intro context2 h1 h2 h3 h4 h5
      have := ih context2
      refine ⟨?_, ?_, ?_, ?_, ?_⟩
      · rw [this.1, h1]
        simp
        omega
      · rw [this.2.1, h2]
        simp [listBytes]
        omega
      · rw [this.2.2.1, h3]
        by_cases hq : 0 < m.qos <;> simp [count12, List.filter_cons, hq] <;> omega
      · rw [this.2.2.2.1, h4]
        by_cases hq : 0 < m.qos <;> simp [bytes12, List.filter_cons, hq] <;> omega
      · rw [this.2.2.2.2, h5]
    by_cases hgate : db__ready_for_flight db
        { context with msgs_out := reconnectCountMsg context.msgs_out m } Dir.md_out m.qos = true
    · rw [if_pos hgate]
      apply hstep <;>
        simp [db__message_dequeue_first, reconnectCountMsg] <;>
        split <;> simp <;> omega
    · rw [if_neg hgate]
      apply hstep <;> simp [reconnectCountMsg] <;> split <;> simp

/-- Structure of the queued walk of the outbound reconnect reset: writing
states aside (eraseState), the walk moves an initial segment of the
current queue onto the end of inflight and leaves the remaining segment
queued. skipped holds the already visited, not yet dequeued nodes sitting
in front of the unvisited suffix. -/
theorem resetOutQueued_structure (db : Db) :
    ∀ (pending : List ClientMsg) (context : Context) (skipped : List ClientMsg),
      context.msgs_out.queued = skipped ++ pending →
      ∃ pr suf newpart : List ClientMsg,
        (skipped ++ pending).map eraseState = pr ++ suf
        ∧ newpart.map eraseState = pr
        ∧ (resetOutQueued db context pending).msgs_out.inflight
            = context.msgs_out.inflight ++ newpart
        ∧ (resetOutQueued db context pending).msgs_out.queued.map eraseState = suf := by
  intro pending
  induction pending with
  | nil =>
    intro context skipped hinv
    refine ⟨[], skipped.map eraseState, [], by simp, rfl, by simp [resetOutQueued], ?_⟩
    simp only [resetOutQueued]
    rw [hinv]
    simp
  | cons m rest ih =>
    intro context skipped hinv
    simp only [resetOutQueued]
    by_cases hgate : db__ready_for_flight db
        { context with msgs_out := reconnectCountMsg context.msgs_out m } Dir.md_out m.qos = true
    · rw [if_pos hgate]
      have hq1 : (reconnectCountMsg context.msgs_out m).queued = skipped ++ m :: rest := hinv
      rw [hq1]
      have hlen : (skipped ++ m :: rest).length - rest.length - 1 = skipped.length := by
        simp only [List.length_append, List.length_cons]
        omega
      rw [hlen, set_append_length]
      cases skipped with
      | nil =>
        rw [List.nil_append]
        obtain ⟨pr1, suf1, newpart1, hsplit1, hmap1, hinf1, hq2⟩ := ih { context with msgs_out := db__message_dequeue_first { reconnectCountMsg context.msgs_out m with queued := { m with state := stateForQos m.qos m.state } :: rest } } [] (by simp [db__message_dequeue_first])
        refine ⟨eraseState m :: pr1, suf1,
          { m with state := stateForQos m.qos m.state } :: newpart1, ?_, ?_, ?_, hq2⟩
        · rw [List.nil_append] at hsplit1
          simp only [List.nil_append, List.map_cons, List.cons_append]
          rw [hsplit1]
        · simp only [List.map_cons, hmap1]
          rfl
        · exact hinf1.trans (by simp [db__message_dequeue_first, reconnectCountMsg])
      | cons s0 s1 =>
        rw [List.cons_append]
        obtain ⟨pr1, suf1, newpart1, hsplit1, hmap1, hinf1, hq2⟩ := ih { context with msgs_out := db__message_dequeue_first { reconnectCountMsg context.msgs_out m with queued := s0 :: (s1 ++ { m with state := stateForQos m.qos m.state } :: rest) } } (s1 ++ [{ m with state := stateForQos m.qos m.state }]) (by simp [db__message_dequeue_first])
        refine ⟨eraseState s0 :: pr1, suf1, s0 :: newpart1, ?_, ?_, ?_, hq2⟩
        · have hL : ((s1 ++ [{ m with state := stateForQos m.qos m.state }]) ++ rest).map eraseState
              = (s1 ++ m :: rest).map eraseState := by
            simp only [List.append_assoc, List.singleton_append, List.map_append, List.map_cons]
            rfl
          rw [hL] at hsplit1
          simp only [List.cons_append, List.map_cons]
          rw [hsplit1]
        · simp only [List.map_cons, hmap1]
        · exact hinf1.trans (by simp [db__message_dequeue_first, reconnectCountMsg])
    · rw [if_neg hgate]
      obtain ⟨pr1, suf1, newpart1, hsplit1, hmap1, hinf1, hq2⟩ := ih { context with msgs_out := reconnectCountMsg context.msgs_out m } (skipped ++ [m]) (by simp only [reconnectCountMsg]; rw [hinv]; simp)
      refine ⟨pr1, suf1, newpart1, ?_, hmap1, ?_, hq2⟩
      · have hL : ((skipped ++ [m]) ++ rest) = skipped ++ m :: rest := by simp
        rw [hL] at hsplit1
        exact hsplit1
      · exact hinf1

/-- With both admission limits disabled the gate always opens, so the
queued walk of the outbound reconnect reset promotes everything. -/
theorem resetOutQueued_all_promoted (db : Db) (hbytes : db.config.max_inflight_bytes = 0) :
    ∀ (pending : List ClientMsg) (context : Context),
      context.msgs_out.inflight_maximum = 0 →
      context.msgs_out.queued = pending →
      (resetOutQueued db context pending).msgs_out.queued = [] := by
  intro pending
  induction pending with
  | nil =>
    intro context hmax hinv
    simp only [resetOutQueued]
    rw [hinv]
  | cons m rest ih =>
    intro context hmax hinv
    simp only [resetOutQueued]
    have hgate : db__ready_for_flight db
        { context with msgs_out := reconnectCountMsg context.msgs_out m } Dir.md_out m.qos
        = true := by
      unfold db__ready_for_flight
      have h1 : (msgsFor { context with msgs_out := reconnectCountMsg context.msgs_out m }
          Dir.md_out).inflight_maximum = 0 := by
        simp [msgsFor, reconnectCountMsg, hmax]
      simp [h1, hbytes]
    rw [if_pos hgate]
    have hq1 : (reconnectCountMsg context.msgs_out m).queued = m :: rest := hinv
    rw [hq1]
    have hlen : (m :: rest).length - rest.length - 1 = 0 := by
      simp
    rw [hlen]
    have hset : (m :: rest).set 0 { m with state := stateForQos m.qos m.state }
        = { m with state := stateForQos m.qos m.state } :: rest := rfl
    rw [hset]
    exact ih _ (by simp [db__message_dequeue_first, reconnectCountMsg, hmax])
      (by simp [db__message_dequeue_first])


/-- listBytes, count12 and bytes12 are additive over append. -/
theorem accounting_append (a b : List ClientMsg) :
    listBytes (a ++ b) = listBytes a + listBytes b
    ∧ count12 (a ++ b) = count12 a + count12 b
    ∧ bytes12 (a ++ b) = bytes12 a + bytes12 b := by
  refine ⟨?_, ?_, ?_⟩ <;> simp [listBytes, count12, bytes12, List.filter_append]

/-- The two phases of the outbound reconnect reset assembled over an
abstract starting context whose four outbound counters are zero: the
rebuilt counters reflect the final lists exactly, the remapped old
inflight entries form a prefix of the new inflight list, a prefix of the
old queue is promoted (states aside) with the rest left queued, and with
both admission limits off the whole queue is promoted. -/
theorem reconnect_out_phases (db : Db) (C0 : Context)
    (h0c : C0.msgs_out.msg_count = 0)
    (h0b : C0.msgs_out.msg_bytes = 0)
    (h0c12 : C0.msgs_out.msg_count12 = 0)
    (h0b12 : C0.msgs_out.msg_bytes12 = 0) :
    countersOk (resetOutQueued db (resetOutInflight C0 [] C0.msgs_out.inflight)
        (resetOutInflight C0 [] C0.msgs_out.inflight).msgs_out.queued).msgs_out
    ∧ (resetOutQueued db (resetOutInflight C0 [] C0.msgs_out.inflight)
        (resetOutInflight C0 [] C0.msgs_out.inflight).msgs_out.queued).msgs_out.inflight.take
        C0.msgs_out.inflight.length
      = C0.msgs_out.inflight.map remapOutState
    ∧ (∃ k, k ≤ C0.msgs_out.queued.length
        ∧ (resetOutQueued db (resetOutInflight C0 [] C0.msgs_out.inflight)
            (resetOutInflight C0 [] C0.msgs_out.inflight).msgs_out.queued).msgs_out.inflight.map
              eraseState
          = (C0.msgs_out.inflight.map remapOutState).map eraseState
            ++ (C0.msgs_out.queued.take k).map eraseState
        ∧ (resetOutQueued db (resetOutInflight C0 [] C0.msgs_out.inflight)
            (resetOutInflight C0 [] C0.msgs_out.inflight).msgs_out.queued).msgs_out.queued.map
              eraseState
          = (C0.msgs_out.queued.drop k).map eraseState)
    ∧ ((C0.msgs_out.inflight_maximum = 0 ∧ db.config.max_inflight_bytes = 0) →
        (resetOutQueued db (resetOutInflight C0 [] C0.msgs_out.inflight)
          (resetOutInflight C0 [] C0.msgs_out.inflight).msgs_out.queued).msgs_out.queued
          = []) := by
  set C1 := resetOutInflight C0 [] C0.msgs_out.inflight with hC1
  set R := resetOutQueued db C1 C1.msgs_out.queued with hR
  have h1 := resetOutInflight_spec C0.msgs_out.inflight C0 []
  rw [← hC1] at h1
  obtain ⟨h1inf, h1q, h1c, h1b, h1c12, h1b12, h1max⟩ := h1
  rw [List.nil_append] at h1inf
  have h2c := resetOutQueued_counters db C1.msgs_out.queued C1
  rw [← hR] at h2c
  obtain ⟨h2cc, h2cb, h2cc12, h2cb12, h2cmax⟩ := h2c
  have h2s := resetOutQueued_structure db C1.msgs_out.queued C1 [] rfl
  rw [← hR] at h2s
  obtain ⟨pr, suf, newpart, hsplit, hmap, hinf, hq⟩ := h2s
  rw [List.nil_append, h1q] at hsplit
  rw [h1q] at h2cc h2cb h2cc12 h2cb12
  have hlinf : R.msgs_out.inflight.length
      = C0.msgs_out.inflight.length + newpart.length := by
    rw [hinf, h1inf]
    simp
  have hlq : R.msgs_out.queued.length = suf.length := by
    have := congrArg List.length hq
    simpa using this
  have hlnew : newpart.length = pr.length := by
    have := congrArg List.length hmap
    simpa using this
  have hlsplit : C0.msgs_out.queued.length = pr.length + suf.length := by
    have := congrArg List.length hsplit
    simpa using this
  have hremap := accounting_map_invariant remapOutState remapOutState_invariant
    C0.msgs_out.inflight
  have hnew := accounting_map_invariant eraseState eraseState_invariant newpart
  have hqmap := accounting_map_invariant eraseState eraseState_invariant R.msgs_out.queued
  have hq0map := accounting_map_invariant eraseState eraseState_invariant C0.msgs_out.queued
  refine ⟨⟨?_, ?_, ?_, ?_⟩, ?_, ?_, ?_⟩
  · rw [h2cc, h1c, h0c]
    omega
  · have e1 : listBytes R.msgs_out.inflight
        = listBytes C0.msgs_out.inflight + listBytes newpart := by
      rw [hinf, h1inf, (accounting_append (C0.msgs_out.inflight.map remapOutState) newpart).1,
        hremap.1]
    have e2 : listBytes R.msgs_out.queued = listBytes suf := by
      have h := hqmap.1
      rw [hq] at h
      exact h.symm
    have e3 : listBytes newpart = listBytes pr := by
      have h := hnew.1
      rw [hmap] at h
      exact h.symm
    have e4 : listBytes pr + listBytes suf = listBytes C0.msgs_out.queued := by
      have h := hq0map.1
      rw [hsplit] at h
      rw [← h, (accounting_append pr suf).1]
    rw [h2cb, h1b, h0b, e1, e2, e3]
    omega
  · have f1 : count12 R.msgs_out.inflight
        = count12 C0.msgs_out.inflight + count12 newpart := by
      rw [hinf, h1inf, (accounting_append (C0.msgs_out.inflight.map remapOutState) newpart).2.1,
        hremap.2.1]
    have f2 : count12 R.msgs_out.queued = count12 suf := by
      have h := hqmap.2.1
      rw [hq] at h
      exact h.symm
    have f3 : count12 newpart = count12 pr := by
      have h := hnew.2.1
      rw [hmap] at h
      exact h.symm
    have f4 : count12 pr + count12 suf = count12 C0.msgs_out.queued := by
      have h := hq0map.2.1
      rw [hsplit] at h
      rw [← h, (accounting_append pr suf).2.1]
    rw [h2cc12, h1c12, h0c12, f1, f2, f3]
    omega
  · have g1 : bytes12 R.msgs_out.inflight
        = bytes12 C0.msgs_out.inflight + bytes12 newpart := by
      rw [hinf, h1inf, (accounting_append (C0.msgs_out.inflight.map remapOutState) newpart).2.2,
        hremap.2.2]
    have g2 : bytes12 R.msgs_out.queued = bytes12 suf := by
      have h := hqmap.2.2
      rw [hq] at h
      exact h.symm
    have g3 : bytes12 newpart = bytes12 pr := by
      have h := hnew.2.2
      rw [hmap] at h
      exact h.symm
    have g4 : bytes12 pr + bytes12 suf = bytes12 C0.msgs_out.queued := by
      have h := hq0map.2.2
      rw [hsplit] at h
      rw [← h, (accounting_append pr suf).2.2]
    rw [h2cb12, h1b12, h0b12, g1, g2, g3]
    omega
  · rw [hinf, h1inf]
    have hl : C0.msgs_out.inflight.length
        = (C0.msgs_out.inflight.map remapOutState).length := by simp
    rw [hl, List.take_left]
  · refine ⟨pr.length, by omega, ?_, ?_⟩
    · have ht : (C0.msgs_out.queued.take pr.length).map eraseState = pr := by
        rw [List.map_take, hsplit, List.take_left]
      rw [ht, hinf, List.map_append, h1inf, hmap]
    · have hd : (C0.msgs_out.queued.drop pr.length).map eraseState = suf := by
        rw [List.map_drop, hsplit, List.drop_left]
      rw [hd, hq]
  · intro hz
    rw [hR]
    exact resetOutQueued_all_promoted db hz.2 C1.msgs_out.queued C1
      (by rw [h1max]; exact hz.1) rfl

/-- An outbound bookkeeping block for a reconnecting session: stale
counters, a qos-2 delivery awaiting PUBCOMP plus a qos-1 delivery
inflight, one queued qos-1 message, and no inflight cap. -/
def rMd : MsgData :=
  { inflight := [sampleMsg 1 2 MsgState.ms_wait_for_pubcomp,
      sampleMsg 2 1 MsgState.ms_wait_for_puback]
    queued := [sampleMsg 3 1 MsgState.ms_queued]
    msg_count := 0
    msg_count12 := 0
    msg_bytes := 0
    msg_bytes12 := 0
    inflight_maximum := 0
    inflight_quota := 0 }

/-- The session owning rMd. -/
def rCtx : Context :=
  { sampleCtx with msgs_out := rMd }

/-- C8: db__message_reconnect_reset_outgoing zeroes and rebuilds the four
outbound counters so that they reflect the resulting lists exactly; the
previously inflight entries keep their positions with their states
remapped by remapOutState, under which a qos-2 message in
ms_wait_for_pubcomp becomes ms_resend_pubrel and is never regressed to
ms_publish_qos2; an initial segment of the old queue is promoted onto the
end of the inflight list (with only states rewritten) and the remainder
stays queued in order; and when inflight_maximum and max_inflight_bytes
are both zero the entire queue is promoted. -/
theorem message_reconnect_reset_outgoing_spec (db : Db) (context : Context) :
    countersOk (db__message_reconnect_reset_outgoing db context).msgs_out
    ∧ (db__message_reconnect_reset_outgoing db context).msgs_out.inflight.take
        context.msgs_out.inflight.length
      = context.msgs_out.inflight.map remapOutState
    ∧ (∃ k, k ≤ context.msgs_out.queued.length
        ∧ (db__message_reconnect_reset_outgoing db context).msgs_out.inflight.map eraseState
          = (context.msgs_out.inflight.map remapOutState).map eraseState
            ++ (context.msgs_out.queued.take k).map eraseState
        ∧ (db__message_reconnect_reset_outgoing db context).msgs_out.queued.map eraseState
          = (context.msgs_out.queued.drop k).map eraseState)
    ∧ (∀ m : ClientMsg, m.qos = 2 → m.state = MsgState.ms_wait_for_pubcomp →
        (remapOutState m).state = MsgState.ms_resend_pubrel)
    ∧ ((context.msgs_out.inflight_maximum = 0 ∧ db.config.max_inflight_bytes = 0) →
        (db__message_reconnect_reset_outgoing db context).msgs_out.queued = []) := by
  have h := reconnect_out_phases db
    { context with msgs_out := { context.msgs_out with
        msg_count := 0
        msg_count12 := 0
        msg_bytes := 0
        msg_bytes12 := 0
        inflight_quota := (context.msgs_out.inflight_maximum : Int) } }
    rfl rfl rfl rfl
  exact ⟨h.1, h.2.1, h.2.2.1, remapOutState_pubcomp, h.2.2.2⟩

/-- Witness for C8 at a concrete reconnecting session: with both limits
off the queue is fully promoted, and the wait-for-PUBCOMP entry is
remapped to resend_pubrel. -/
theorem message_reconnect_reset_outgoing_spec_witness :
    (db__message_reconnect_reset_outgoing sampleDb rCtx).msgs_out.queued = []
    ∧ (remapOutState (sampleMsg 1 2 MsgState.ms_wait_for_pubcomp)).state
        = MsgState.ms_resend_pubrel :=
  ⟨(message_reconnect_reset_outgoing_spec sampleDb rCtx).2.2.2.2 ⟨rfl, rfl⟩,
    (message_reconnect_reset_outgoing_spec sampleDb rCtx).2.2.2.1
      (sampleMsg 1 2 MsgState.ms_wait_for_pubcomp) rfl rfl⟩

/-- An ACL checker that denies every request. -/
def denyAcl : AclFn := fun _ _ _ _ _ _ => dimq_ERR_INVAL

/-- An outbound bookkeeping block holding one inflight qos-1 delivery with
counters that reflect it exactly. -/
def c1Md : MsgData :=
  { inflight := [sampleMsg 1 1 MsgState.ms_wait_for_puback]
    queued := []
    msg_count := 1
    msg_count12 := 1
    msg_bytes := 2
    msg_bytes12 := 2
    inflight_maximum := 5
    inflight_quota := 5 }

/-- A pool entry for the sample stored message, referenced once and not
yet delivered anywhere. -/
def c1Stored : StoredMsg :=
  { core := sampleSm
    ref_count := 1
    dest_ids := [] }

/-- The session produced by inserting a qos-1 message outbound into a
connected session whose max_qos is 0 (the stored qos is capped, the
counter update is not). -/
def c1InsCtx : Context :=
  ((db__message_insert sampleOracle sampleDb (some { sampleCtx with max_qos := 0 }) 10
    Dir.md_out 1 false c1Stored false).2.2.1).getD sampleCtx

/-- listBytes, count12 and bytes12 over a cons. -/
theorem accounting_cons (a : ClientMsg) (l : List ClientMsg) :
    listBytes (a :: l) = (a.store.payloadlen : Int) + listBytes l
    ∧ count12 (a :: l) = (if 0 < a.qos then 1 else 0) + count12 l
    ∧ bytes12 (a :: l)
      = (if 0 < a.qos then (a.store.payloadlen : Int) else 0) + bytes12 l := by
  refine ⟨by simp [listBytes], ?_, ?_⟩ <;>
    by_cases hq : 0 < a.qos <;>
    simp [count12, bytes12, List.filter_cons, hq] <;>
    push_cast <;>
    omega

/-- listBytes, count12 and bytes12 of a single message. -/
theorem accounting_single (m : ClientMsg) :
    listBytes [m] = (m.store.payloadlen : Int)
    ∧ count12 [m] = (if 0 < m.qos then 1 else 0)
    ∧ bytes12 [m] = (if 0 < m.qos then (m.store.payloadlen : Int) else 0) := by
  refine ⟨by simp [listBytes], ?_, ?_⟩ <;>
    by_cases hq : 0 < m.qos <;>
    simp [count12, bytes12, hq]

/-- Accounting of List.erase at a member: length drops by one and each
accounting quantity drops by the element's contribution. -/
theorem accounting_erase (item : ClientMsg) :
    ∀ l : List ClientMsg, item ∈ l →
      ((l.erase item).length : Int) = (l.length : Int) - 1
      ∧ listBytes (l.erase item) = listBytes l - (item.store.payloadlen : Int)
      ∧ count12 (l.erase item) = count12 l - (if 0 < item.qos then 1 else 0)
      ∧ bytes12 (l.erase item)
        = bytes12 l - (if 0 < item.qos then (item.store.payloadlen : Int) else 0) := by
  intro l
  induction l with
  | nil => intro h; cases h
  | cons a rest ih =>
    intro h
    by_cases ha : a = item
    · subst ha
      have he : (a :: rest).erase a = rest := by simp [List.erase_cons]
      rw [he]
      obtain ⟨c1, c2, c3⟩ := accounting_cons a rest
      refine ⟨?_, ?_, ?_, ?_⟩
      · simp only [List.length_cons]
        push_cast
        omega
      · rw [c1]
        ring
      · rw [c2]
        ring
      · rw [c3]
        ring
    · have hmem : item ∈ rest := by
        rcases List.mem_cons.mp h with h1 | h1
        · exact absurd h1.symm ha
        · exact h1
      have he : (a :: rest).erase item = a :: rest.erase item := by
        simp [List.erase_cons, ha]
      obtain ⟨e1, e2, e3, e4⟩ := ih hmem
      rw [he]
      obtain ⟨c1, c2, c3⟩ := accounting_cons a (rest.erase item)
      obtain ⟨d1, d2, d3⟩ := accounting_cons a rest
      refine ⟨?_, ?_, ?_, ?_⟩
      · simp only [List.length_cons]
        push_cast at e1 ⊢
        omega
      · rw [c1, d1, e2]
        ring
      · rw [c2, d2, e3]
        ring
      · rw [c3, d3, e4]
        ring

/-- Reading back the direction just written gives the installed block. -/
theorem msgsFor_setMsgs (context : Context) (dir : Dir) (md : MsgData) :
    msgsFor (setMsgs context dir md) dir = md := by
  cases dir <;> simp [msgsFor, setMsgs]

/-- Appending one message to either list while adding its contribution to
the counters (keyed on a qos value equal to the message's) preserves the
counters-reflect-the-lists invariant, whatever the window fields become. -/
theorem countersOk_snoc (md : MsgData) (m : ClientMsg) (q : Nat) (im : Nat) (iq : Int)
    (hmq : m.qos = q) (hok : countersOk md) (inq : Bool) :
    countersOk
      { inflight := if inq then md.inflight else md.inflight ++ [m]
        queued := if inq then md.queued ++ [m] else md.queued
        msg_count := md.msg_count + 1
        msg_bytes := md.msg_bytes + (m.store.payloadlen : Int)
        msg_count12 := if 0 < q then md.msg_count12 + 1 else md.msg_count12
        msg_bytes12 := if 0 < q then md.msg_bytes12 + (m.store.payloadlen : Int)
          else md.msg_bytes12
        inflight_maximum := im
        inflight_quota := iq } := by
  obtain ⟨h1, h2, h3, h4⟩ := hok
  subst hmq
  obtain ⟨s1, s2, s3⟩ := accounting_single m
  cases inq <;> refine ⟨?_, ?_, ?_, ?_⟩
  · simp only [Bool.false_eq_true, if_false, List.length_append, List.length_cons,
      List.length_nil]
    push_cast at h1 ⊢
    omega
  · simp only [Bool.false_eq_true, if_false]
    rw [(accounting_append md.inflight [m]).1, s1]
    omega
  · simp only [Bool.false_eq_true, if_false]
    rw [(accounting_append md.inflight [m]).2.1, s2]
    split_ifs with hq <;> omega
  · simp only [Bool.false_eq_true, if_false]
    rw [(accounting_append md.inflight [m]).2.2, s3]
    split_ifs with hq <;> omega
  · simp only [if_true, List.length_append, List.length_cons, List.length_nil]
    push_cast at h1 ⊢
    omega
  · simp only [if_true]
    rw [(accounting_append md.queued [m]).1, s1]
    omega
  · simp only [if_true]
    rw [(accounting_append md.queued [m]).2.1, s2]
    split_ifs with hq <;> omega
  · simp only [if_true]
    rw [(accounting_append md.queued [m]).2.2, s3]
    split_ifs with hq <;> omega

/-- listBytes distributes over append. -/
theorem listBytes_append (a b : List ClientMsg) :
    listBytes (a ++ b) = listBytes a + listBytes b := (accounting_append a b).1

/-- count12 distributes over append. -/
theorem count12_append (a b : List ClientMsg) :
    count12 (a ++ b) = count12 a + count12 b := (accounting_append a b).2.1

/-- bytes12 distributes over append. -/
theorem bytes12_append (a b : List ClientMsg) :
    bytes12 (a ++ b) = bytes12 a + bytes12 b := (accounting_append a b).2.2

/-- listBytes of a singleton. -/
theorem listBytes_single (m : ClientMsg) :
    listBytes [m] = (m.store.payloadlen : Int) := (accounting_single m).1

/-- count12 of a singleton. -/
theorem count12_single (m : ClientMsg) :
    count12 [m] = if 0 < m.qos then 1 else 0 := (accounting_single m).2.1

/-- bytes12 of a singleton. -/
theorem bytes12_single (m : ClientMsg) :
    bytes12 [m] = if 0 < m.qos then (m.store.payloadlen : Int) else 0 :=
  (accounting_single m).2.2

/-- setMsgs only rewrites a message block, never the bridge pointer. -/
theorem setMsgs_bridge (context : Context) (dir : Dir) (md : MsgData) :
    (setMsgs context dir md).bridge = context.bridge := by
  cases dir <;> simp [setMsgs]

set_option maxHeartbeats 1000000 in
/-- The allocation tail of db__message_insert with update off preserves
the counters invariant of the written direction provided the requested
qos is within the session's cap (otherwise the qos-1-and-2 counters drift,
since they test the uncapped argument while the message stores the capped
one). -/
theorem insert_alloc_counters (oracle : SendOracle) (db : Db) (context : Context) (cid : String)
    (mid : Nat) (dir : Dir) (qos : Nat) (retain : Bool) (stored : StoredMsg) (state : MsgState)
    (rc0 : Int) (hq : qos ≤ context.max_qos) (hok : countersOk (msgsFor context dir)) :
    ∀ ctx' : Context,
      (db__message_insert_alloc oracle db context cid mid dir qos retain stored false state
        rc0).2.2.1 = some ctx' →
      countersOk (msgsFor ctx' dir) := by
  intro ctx' hdef
  simp only [db__message_insert_alloc, Bool.false_eq_true, and_false, if_false,
    Option.some.injEq] at hdef
  rw [if_neg (not_lt.mpr hq)] at hdef
  subst hdef
  have hquota : ∀ c : Context, countersOk (msgsFor c dir) →
      countersOk (msgsFor (util__decrement_send_quota c) dir) := by
    intro c hc
    unfold util__decrement_send_quota
    split_ifs with hgt
    · cases dir <;> exact hc
    · exact hc
  have hbridge : ∀ (c : Context) (b' : Option Bridge), countersOk (msgsFor c dir) →
      countersOk (msgsFor { c with bridge := b' } dir) := by
    intro c b' hc
    cases dir <;> exact hc
  have hset : ∀ md : MsgData, countersOk md →
      countersOk (msgsFor (setMsgs context dir md) dir) := by
    intro md h
    rw [msgsFor_setMsgs]
    exact h
  obtain ⟨h1, h2, h3, h4⟩ := hok
  rw [setMsgs_bridge]
  cases hb : context.bridge with
  | none =>
    simp only [hb]
    split_ifs <;>
      (first | apply hquota | skip) <;>
      apply hset <;>
      refine ⟨?_, ?_, ?_, ?_⟩ <;>
      simp only [listBytes_append, count12_append, bytes12_append, listBytes_single,
        count12_single, bytes12_single, List.length_append, List.length_cons,
        List.length_nil] <;>
      first
        | omega
        | (split_ifs <;> omega)
  | some b =>
    simp only [hb]
    split_ifs <;>
      (first | apply hquota | skip) <;>
      (first | apply hbridge | skip) <;>
      apply hset <;>
      refine ⟨?_, ?_, ?_, ?_⟩ <;>
      simp only [listBytes_append, count12_append, bytes12_append, listBytes_single,
        count12_single, bytes12_single, List.length_append, List.length_cons,
        List.length_nil] <;>
      first
        | omega
        | (split_ifs <;> omega)

/-- The session produced by inserting a qos-1 message outbound into the
connected sample session (within its qos cap, no write-through). -/
def wInsCtx : Context :=
  ((db__message_insert sampleOracle sampleDb (some sampleCtx) 10 Dir.md_out 1 false c1Stored
    false).2.2.1).getD sampleCtx

/-- C1 counterexample: the CONNECT-time ACL recheck unlinks denied entries
without touching any counter, breaking the counters-reflect-the-lists
invariant; and an insert whose requested qos exceeds the session's max_qos
bumps the qos-1-and-2 counters even though the message is stored with the
capped (lower) qos. -/
theorem counters_counterexample :
    countersOk c1Md
    ∧ ¬ countersOk { c1Md with
        inflight := (connection_check_acl denyAcl sampleCtx sampleDb c1Md.inflight).2 }
    ∧ ¬ countersOk c1InsCtx.msgs_out := by
  refine ⟨⟨by decide, by decide, by decide, by decide⟩, fun h => absurd h.1 (by decide),
    fun h => absurd h.2.2.1 (by decide)⟩

/-- C1 (amended): the counters-reflect-the-lists invariant is preserved by
the counter-maintaining mutations: removal of an inflight entry on ack,
the outbound reconnect reset (which rebuilds the counters from scratch),
and message insertion without write-through when the requested qos is
within the session's cap; the CONNECT-time ACL recheck and over-cap
inserts break it (see the counterexample). -/
theorem message_data_counters_spec :
    (∀ (db : Db) (md : MsgData) (item : ClientMsg), item ∈ md.inflight →
      countersOk md → countersOk (db__message_remove db md item).2)
    ∧ (∀ (db : Db) (context : Context),
        countersOk (db__message_reconnect_reset_outgoing db context).msgs_out)
    ∧ (∀ (oracle : SendOracle) (db : Db) (context : Context) (mid : Nat) (dir : Dir)
        (qos : Nat) (retain : Bool) (stored : StoredMsg) (ctx' : Context),
        qos ≤ context.max_qos →
        countersOk (msgsFor context dir) →
        (db__message_insert oracle db (some context) mid dir qos retain stored false).2.2.1
          = some ctx' →
        countersOk (msgsFor ctx' dir)) := by
  refine ⟨?_, ?_, ?_⟩
  · intro db md item hmem hok
    obtain ⟨h1, h2, h3, h4⟩ := hok
    obtain ⟨e1, e2, e3, e4⟩ := accounting_erase item md.inflight hmem
    simp only [db__message_remove, removeCounters]
    refine ⟨?_, ?_, ?_, ?_⟩ <;> dsimp only
    · omega
    · omega
    · split_ifs with hqi <;> simp only [hqi, if_true, if_false] at e3 <;> omega
    · split_ifs with hqi <;> simp only [hqi, if_true, if_false] at e4 <;> omega
  · intro db context
    have h := reconnect_out_phases db
      { context with msgs_out := { context.msgs_out with
          msg_count := 0
          msg_count12 := 0
          msg_bytes := 0
          msg_bytes12 := 0
          inflight_quota := (context.msgs_out.inflight_maximum : Int) } }
      rfl rfl rfl rfl
    exact h.1
  · intro oracle db context mid dir qos retain stored ctx' hq hok hdef
    simp only [db__message_insert] at hdef
    cases hid : context.id with
    | none =>
      simp only [hid, Option.some.injEq] at hdef
      subst hdef
      exact hok
    | some cid =>
      simp only [hid] at hdef
      split_ifs at hdef
      all_goals
        first
          | exact insert_alloc_counters oracle db context cid mid dir qos retain stored _ _
              hq hok ctx' hdef
          | (simp only [insertDrop, Option.some.injEq] at hdef
             subst hdef
             first
               | exact hok
               | (cases dir <;> exact hok))

/-- Witness for C1 at concrete inputs: removing the inflight entry keeps
the invariant, and a capped connected-session insert keeps it. -/
theorem message_data_counters_spec_witness :
    countersOk (db__message_remove sampleDb c1Md (sampleMsg 1 1 MsgState.ms_wait_for_puback)).2
    ∧ countersOk (msgsFor wInsCtx Dir.md_out) :=
  ⟨message_data_counters_spec.1 sampleDb c1Md (sampleMsg 1 1 MsgState.ms_wait_for_puback)
      (by decide) ⟨by decide, by decide, by decide, by decide⟩,
    message_data_counters_spec.2.2 sampleOracle sampleDb sampleCtx 10 Dir.md_out 1 false
      c1Stored wInsCtx (by decide) ⟨by decide, by decide, by decide, by decide⟩ (by decide)⟩

/-- The per-entry effect of the decrement pass of db__msg_store_ref_dec. -/
def decAt (id : Nat) (e : StoredMsg) : StoredMsg :=
  if e.core.db_id = id then { e with ref_count := e.ref_count - 1 } else e

/-- Number of client messages in one MessageData referencing the stored
message with the given pool id. -/
def refsMd (md : MsgData) (id : Nat) : Int :=
  ((md.inflight.filter (fun m => m.store.db_id = id)).length : Int)
  + ((md.queued.filter (fun m => m.store.db_id = id)).length : Int)

/-- Number of client messages in one session referencing the stored
message with the given pool id. -/
def refsCtx (c : Context) (id : Nat) : Int :=
  refsMd c.msgs_in id + refsMd c.msgs_out id

/-- Number of client messages across all sessions referencing the stored
message with the given pool id. -/
def refs (ctxs : List Context) (id : Nat) : Int :=
  (ctxs.map (fun c => refsCtx c id)).sum

/-- The reference-count invariant (spec section 3): every pool entry's
ref_count equals the number of ClientMsg structures referencing it. -/
def refOk (db : Db) (ctxs : List Context) : Prop :=
  ∀ e ∈ db.msg_store, e.ref_count = refs ctxs e.core.db_id

/-- decAt only touches ref_count. -/
theorem decAt_core (id : Nat) (e : StoredMsg) : (decAt id e).core = e.core := by
  unfold decAt
  split_ifs <;> rfl

/-- The pool after the decrement pass: every entry with the id is
decremented and the entries hitting zero are dropped. -/
theorem refDecPool_fst (id : Nat) :
    ∀ pool : List StoredMsg, (refDecPool pool id).1
      = (pool.map (decAt id)).filter
          (fun e => !(decide (e.core.db_id = id) && decide (e.ref_count = 0))) := by
  intro pool
  induction pool with
  | nil => rfl
  | cons e rest ih =>
    simp only [refDecPool, List.map_cons, List.filter_cons]
    by_cases h1 : e.core.db_id = id
    · by_cases h2 : e.ref_count - 1 = 0
      · simp [decAt, h1, h2, ih]
      · simp [decAt, h1, h2, ih]
    · simp [decAt, h1, ih]

/-- Erasing a member changes a filter count by the member's indicator. -/
theorem filter_erase_len (p : ClientMsg → Bool) (item : ClientMsg) :
    ∀ l : List ClientMsg, item ∈ l →
      ((l.filter p).length : Int)
        = (((l.erase item).filter p).length : Int) + (if p item then 1 else 0) := by
  intro l
  induction l with
  | nil => intro h; cases h
  | cons a rest ih =>
    intro h
    by_cases ha : a = item
    · subst ha
      have he : (a :: rest).erase a = rest := by simp [List.erase_cons]
      rw [he]
      by_cases hp : p a <;> simp [List.filter_cons, hp]
    · have hmem : item ∈ rest := by
        rcases List.mem_cons.mp h with h1 | h1
        · exact absurd h1.symm ha
        · exact h1
      have he : (a :: rest).erase item = a :: rest.erase item := by
        simp [List.erase_cons, ha]
      rw [he]
      have hr := ih hmem
      by_cases hp : p a <;>
        simp only [List.filter_cons, hp, if_true, if_false, List.length_cons] <;>
        push_cast at hr ⊢ <;>
        omega
/-- refs splits over the surrounding sessions. -/
theorem refs_append_cons (pre post : List Context) (c : Context) (j : Nat) :
    refs (pre ++ c :: post) j = refs pre j + refsCtx c j + refs post j := by
  simp only [refs, List.map_append, List.map_cons, List.sum_append, List.sum_cons]
  ring

/-- C4: ref_count tracks the references exactly. Removal of an inflight
entry (ack path) keeps every pool entry's ref_count equal to the number of
referencing client messages, and drops the entries with the acked store id
from the pool precisely when the last reference disappeared (ref_count was
1); taking a reference (ref-increment paired with one new referencing
client message) preserves the invariant; and the compaction sweep
preserves it and never frees an entry that is still referenced. -/
theorem msg_store_refcount_spec :
    (∀ (db : Db) (pre post : List Context) (ctx : Context) (item : ClientMsg),
      item ∈ ctx.msgs_out.inflight →
      refOk db (pre ++ ctx :: post) →
      refOk (db__message_remove db ctx.msgs_out item).1
        (pre ++ { ctx with msgs_out := (db__message_remove db ctx.msgs_out item).2 } :: post)
      ∧ (∀ e ∈ db.msg_store, e.core.db_id = item.store.db_id →
          (e.ref_count = 1 ↔
            ∀ x ∈ (db__message_remove db ctx.msgs_out item).1.msg_store,
              x.core.db_id ≠ item.store.db_id)))
    ∧ (∀ (db : Db) (ctxs ctxs' : List Context) (id : Nat),
        refOk db ctxs →
        (∀ e ∈ db.msg_store,
          refs ctxs' e.core.db_id
            = refs ctxs e.core.db_id + (if e.core.db_id = id then 1 else 0)) →
        refOk (db__msg_store_ref_inc db id) ctxs')
    ∧ (∀ (db : Db) (ctxs : List Context),
        refOk db ctxs →
        refOk (db__msg_store_compact db) ctxs
        ∧ ∀ e ∈ db.msg_store, 0 < refs ctxs e.core.db_id →
            e ∈ (db__msg_store_compact db).msg_store) := by
  refine ⟨?_, ?_, ?_⟩
  · intro db pre post ctx item hmem hok
    have hpool : (db__message_remove db ctx.msgs_out item).1.msg_store
        = (db.msg_store.map (decAt item.store.db_id)).filter
            (fun e => !(decide (e.core.db_id = item.store.db_id)
              && decide (e.ref_count = 0))) := by
      simp only [db__message_remove, db__msg_store_ref_dec]
      exact refDecPool_fst item.store.db_id db.msg_store
    have hrefs : ∀ j : Nat,
        refs (pre ++
            { ctx with msgs_out := (db__message_remove db ctx.msgs_out item).2 } :: post) j
          = refs (pre ++ ctx :: post) j - (if item.store.db_id = j then 1 else 0) := by
      intro j
      rw [refs_append_cons, refs_append_cons]
      have herase := filter_erase_len (fun m => decide (m.store.db_id = j)) item
        ctx.msgs_out.inflight hmem
      have hctx : refsCtx { ctx with msgs_out := (db__message_remove db ctx.msgs_out item).2 } j
          = refsCtx ctx j - (if item.store.db_id = j then 1 else 0) := by
        simp only [refsCtx, refsMd, db__message_remove, removeCounters]
        by_cases hij : item.store.db_id = j
        · simp only [hij] at herase ⊢
          simp at herase ⊢
          omega
        · simp [hij] at herase ⊢
          omega
      omega
    refine ⟨?_, ?_⟩
    · intro x hx
      rw [hpool] at hx
      rcases List.mem_filter.mp hx with ⟨hmm2, hcond⟩
      rcases List.mem_map.mp hmm2 with ⟨e, he, rfl⟩
      rw [decAt_core]
      have h1 := hok e he
      have h2 := hrefs e.core.db_id
      by_cases hid : e.core.db_id = item.store.db_id
      · have hrc : (decAt item.store.db_id e).ref_count = e.ref_count - 1 := by
          simp [decAt, hid]
        have h3 : (if item.store.db_id = e.core.db_id then (1 : Int) else 0) = 1 :=
          if_pos hid.symm
        rw [hrc]
        omega
      · have hrc : (decAt item.store.db_id e).ref_count = e.ref_count := by
          simp [decAt, hid]
        have h3 : (if item.store.db_id = e.core.db_id then (1 : Int) else 0) = 0 :=
          if_neg (fun hh => hid hh.symm)
        rw [hrc]
        omega
    · intro e he hid
      constructor
      · intro h1 x hx
        rw [hpool] at hx
        rcases List.mem_filter.mp hx with ⟨hmm2, hcond⟩
        rcases List.mem_map.mp hmm2 with ⟨e2, he2, rfl⟩
        rw [decAt_core]
        intro hx2
        have q1 := hok e2 he2
        have q2 := hok e he
        rw [hx2] at q1
        rw [hid] at q2
        have hrc2 : e2.ref_count = 1 := by omega
        have hdc : (decAt item.store.db_id e2).ref_count = e2.ref_count - 1 := by
          simp [decAt, hx2]
        rw [decAt_core] at hcond
        simp only [hx2, hdc, hrc2, decide_true_eq_true] at hcond
        simp at hcond
      · intro hall
        by_contra hne
        have hmemnew : decAt item.store.db_id e
            ∈ (db__message_remove db ctx.msgs_out item).1.msg_store := by
          rw [hpool]
          refine List.mem_filter.mpr ⟨List.mem_map.mpr ⟨e, he, rfl⟩, ?_⟩
          have hrc : (decAt item.store.db_id e).ref_count = e.ref_count - 1 := by
            simp [decAt, hid]
          rw [decAt_core] at *
          simp only [hrc, hid]
          simp only [decide_true_eq_true, Bool.true_and]
          simp only [Bool.not_eq_true', decide_eq_false_iff_not]
          omega
        have hx := hall _ hmemnew
        rw [decAt_core] at hx
        exact hx hid
  · intro db ctxs ctxs' id hok hchg x hx
    simp only [db__msg_store_ref_inc] at hx
    rcases List.mem_map.mp hx with ⟨e, he, rfl⟩
    have h1 := hok e he
    have h2 := hchg e he
    by_cases hid : e.core.db_id = id
    · have hcore : (if e.core.db_id = id then { e with ref_count := e.ref_count + 1 }
          else e).core = e.core := by
        simp [hid]
      have hrc : (if e.core.db_id = id then { e with ref_count := e.ref_count + 1 }
          else e).ref_count = e.ref_count + 1 := by
        simp [hid]
      have h3 : (if e.core.db_id = id then (1 : Int) else 0) = 1 := if_pos hid
      rw [hcore, hrc]
      omega
    · have hcore : (if e.core.db_id = id then { e with ref_count := e.ref_count + 1 }
          else e).core = e.core := by
        simp [hid]
      have hrc : (if e.core.db_id = id then { e with ref_count := e.ref_count + 1 }
          else e).ref_count = e.ref_count := by
        simp [hid]
      have h3 : (if e.core.db_id = id then (1 : Int) else 0) = 0 := if_neg hid
      rw [hcore, hrc]
      omega
  · intro db ctxs hok
    refine ⟨?_, ?_⟩
    · intro e he
      simp only [db__msg_store_compact] at he
      exact hok e (List.mem_filter.mp he).1
    · intro e he hpos
      simp only [db__msg_store_compact]
      refine List.mem_filter.mpr ⟨he, ?_⟩
      have h1 := hok e he
      rw [decide_eq_true_eq]
      omega

/-- A broker state whose pool holds the sample stored message with one
reference. -/
def db4 : Db :=
  { sampleDb with msg_store := [c1Stored], msg_store_count := 1, msg_store_bytes := 2 }

/-- The session holding the one reference. -/
def ctx4 : Context :=
  { sampleCtx with msgs_out := c1Md }

/-- Witness for C4 at a one-entry pool with one referencing session: the
invariant survives the ack-path removal, and compaction keeps the entry
while it is referenced. -/
theorem msg_store_refcount_spec_witness :
    refOk (db__message_remove db4 ctx4.msgs_out (sampleMsg 1 1 MsgState.ms_wait_for_puback)).1
      ([] ++ { ctx4 with
        msgs_out := (db__message_remove db4 ctx4.msgs_out
          (sampleMsg 1 1 MsgState.ms_wait_for_puback)).2 } :: [])
    ∧ c1Stored ∈ (db__msg_store_compact db4).msg_store :=
  ⟨(msg_store_refcount_spec.1 db4 [] [] ctx4 (sampleMsg 1 1 MsgState.ms_wait_for_puback)
      (by decide) (by unfold refOk; decide)).1,
    (msg_store_refcount_spec.2.2 db4 [ctx4] (by unfold refOk; decide)).2 c1Stored (by decide)
      (by decide)⟩
